import Mathlib

/-!
Verification development for the battleplanes match engine.

The definitions below are a shallow embedding of the Python sources:
`backend/domain/game_logic.py`, `backend/domain/value_objects.py`,
`backend/domain/models.py`, `backend/application/game_service.py` and the
standalone engine duplicated inside `backend/main.py`.  Boards are lists of
lists of cell statuses (mirroring the Python list-of-list-of-string boards),
coordinates are integers, and every stateful method becomes an explicit
state-passing function.  The opaque game id and the websocket objects carried
by the Python classes are irrelevant to all game rules and are dropped
(player slots are tracked as booleans, as only `is None` tests occur).
-/

namespace Battleplanes

/-- Mirrors `CellStatus` from `domain/value_objects.py` (and `main.py`). -/
inductive CellStatus where
  | empty
  | plane
  | head
  | hit
  | miss
  | head_hit
deriving DecidableEq, Repr

/-- Mirrors `PlaneOrientation` from `domain/value_objects.py`. -/
inductive PlaneOrientation where
  | up
  | down
  | left
  | right
deriving DecidableEq, Repr

/-- Mirrors `GameState` from `domain/value_objects.py`. -/
inductive GameState where
  | waiting
  | placing
  | playing
  | finished
deriving DecidableEq, Repr

/-- The two player identifiers `"player1"` / `"player2"`. -/
inductive Player where
  | p1
  | p2
deriving DecidableEq, Repr

/-- The `"player2" if ... == "player1" else "player1"` idiom. -/
def Player.opponent : Player → Player
  | .p1 => .p2
  | .p2 => .p1

/-- A pair of per-player values, mirroring the Python dicts keyed by
`"player1"` / `"player2"`. -/
structure PlayerMap (α : Type) where
  p1 : α
  p2 : α
deriving DecidableEq, Repr

def PlayerMap.get {α : Type} (m : PlayerMap α) : Player → α
  | .p1 => m.p1
  | .p2 => m.p2

def PlayerMap.set {α : Type} (m : PlayerMap α) : Player → α → PlayerMap α
  | .p1, v => { m with p1 := v }
  | .p2, v => { m with p2 := v }

/-- `PLANE_MATRIX_UP` from `domain/game_logic.py` / `main.py`. -/
def PLANE_MATRIX_UP : List (List Char) :=
  [['.', '.', 'H', '.', '.'],
   ['B', 'B', 'B', 'B', 'B'],
   ['.', '.', 'B', '.', '.'],
   ['.', 'B', 'B', 'B', '.']]

/-- `rotate_matrix_right`: `zip(*matrix[::-1])`, i.e. transpose of the
row-reversed matrix (the two agree on the rectangular matrices used here). -/
def rotate_matrix_right (m : List (List Char)) : List (List Char) :=
  (m.reverse).transpose

/-- `rotate_matrix_left`: `[...zip(*matrix)][::-1]`. -/
def rotate_matrix_left (m : List (List Char)) : List (List Char) :=
  m.transpose.reverse

/-- `rotate_matrix_180`: `[row[::-1] for row in matrix[::-1]]`. -/
def rotate_matrix_180 (m : List (List Char)) : List (List Char) :=
  (m.reverse).map List.reverse

/-- `get_oriented_matrix` from `domain/game_logic.py` / `main.py`. -/
def get_oriented_matrix : PlaneOrientation → List (List Char)
  | .up => PLANE_MATRIX_UP
  | .right => rotate_matrix_right PLANE_MATRIX_UP
  | .down => rotate_matrix_180 PLANE_MATRIX_UP
  | .left => rotate_matrix_left PLANE_MATRIX_UP

/-- One row of the `enumerate` scan: cells `(mx, my, cell)` of a row. -/
def rowCells (my : Nat) : Nat → List Char → List (Nat × Nat × Char)
  | _, [] => []
  | mx, c :: cs => (mx, my, c) :: rowCells my (mx + 1) cs

def matrixCellsAux : Nat → List (List Char) → List (Nat × Nat × Char)
  | _, [] => []
  | my, r :: rs => rowCells my 0 r ++ matrixCellsAux (my + 1) rs

/-- The row-major `for my, row in enumerate(matrix): for mx, cell in
enumerate(row)` scan used by `get_plane_positions`. -/
def matrixCells (m : List (List Char)) : List (Nat × Nat × Char) :=
  matrixCellsAux 0 m

/-- `get_plane_positions` from `domain/game_logic.py` (duplicated verbatim in
`main.py`).  The head cell of the matrix is located by the first row-major
scan; each marked cell is translated so the head lands on the anchor
`(head_x, head_y)`; the head is inserted first in the returned list.  The
`getD` defaults are dead code: every oriented matrix contains the marker. -/
def get_plane_positions (head_x head_y : Int) (o : PlaneOrientation) :
    List (Int × Int) × (Int × Int) :=
  let m := get_oriented_matrix o
  let hm := (((matrixCells m).find? (fun c => c.2.2 == 'H')).map
    (fun c => (c.1, c.2.1))).getD (0, 0)
  let conv : Nat × Nat × Char → Int × Int := fun c =>
    (head_x + ((c.1 : Int) - (hm.1 : Int)), head_y + ((c.2.1 : Int) - (hm.2 : Int)))
  let head_position :=
    (((matrixCells m).filter (fun c => c.2.2 == 'H')).map conv).getLastD (head_x, head_y)
  let positions := ((matrixCells m).filter (fun c => c.2.2 == 'B')).map conv
  (head_position :: positions, head_position)

/-- The cells a plane occupies when anchored at the origin; since the vital
cell lands on the anchor these are exactly the offsets relative to it. -/
def planeOffsets (o : PlaneOrientation) : List (Int × Int) :=
  (get_plane_positions 0 0 o).1

theorem get_plane_positions_eq_translate (hx hy : Int) (o : PlaneOrientation) :
    get_plane_positions hx hy o =
      ((planeOffsets o).map (fun d => (hx + d.1, hy + d.2)), (hx, hy)) := by
  have h : get_plane_positions hx hy o =
      ((planeOffsets o).map (fun d => (hx + d.1, hy + d.2)), (hx + 0, hy + 0)) := by
    cases o <;> rfl
  simpa using h

theorem planeOffsets_nodup (o : PlaneOrientation) : (planeOffsets o).Nodup := by
  cases o <;> decide

theorem planeOffsets_length (o : PlaneOrientation) : (planeOffsets o).length = 10 := by
  cases o <;> decide

theorem planeOffsets_head (o : PlaneOrientation) :
    (planeOffsets o).head? = some (0, 0) := by
  cases o <;> decide

theorem translate_injective (hx hy : Int) :
    Function.Injective (fun d : Int × Int => (hx + d.1, hy + d.2)) := by
  intro a b h
  simp only [Prod.mk.injEq] at h
  have h1 : a.1 = b.1 := by omega
  have h2 : a.2 = b.2 := by omega
  exact Prod.ext h1 h2

/-- Claim C1: for every anchor coordinate (in or out of bounds) and each of
the four orientations, `get_plane_positions` returns exactly 10 pairwise
distinct cells, with the vital (head) cell first in the returned list and
equal to the anchor; the function is total, so it never fails. -/
theorem c1_get_plane_positions_shape (hx hy : Int) (o : PlaneOrientation) :
    (get_plane_positions hx hy o).1.length = 10 ∧
    (get_plane_positions hx hy o).1.Nodup ∧
    (get_plane_positions hx hy o).1.head? = some (hx, hy) ∧
    (get_plane_positions hx hy o).2 = (hx, hy) := by
  rw [get_plane_positions_eq_translate]
  refine ⟨?_, ?_, ?_, rfl⟩
  · simp [List.length_map, planeOffsets_length]
  · exact (planeOffsets_nodup o).map (translate_injective hx hy)
  · rw [List.head?_map, planeOffsets_head]
    simp

/-- 90 degrees clockwise in board coordinates (x to the right, y downward). -/
def rot90cw (d : Int × Int) : Int × Int := (-d.2, d.1)

/-- 180 degree rotation. -/
def rot180 (d : Int × Int) : Int × Int := (-d.1, -d.2)

/-- 270 degrees clockwise (= 90 degrees counter-clockwise). -/
def rot270cw (d : Int × Int) : Int × Int := (d.2, -d.1)

/-- The cell offsets of the produced positions relative to the returned
vital cell. -/
def relativeOffsets (hx hy : Int) (o : PlaneOrientation) : List (Int × Int) :=
  (get_plane_positions hx hy o).1.map
    (fun q => (q.1 - (get_plane_positions hx hy o).2.1,
               q.2 - (get_plane_positions hx hy o).2.2))

theorem relativeOffsets_eq (hx hy : Int) (o : PlaneOrientation) :
    relativeOffsets hx hy o = planeOffsets o := by
  unfold relativeOffsets
  rw [get_plane_positions_eq_translate]
  simp [List.map_map, Function.comp_def]

/-- Claim C7: the four orientations are rotations of one fixed 10-cell shape:
relative to the vital cell, the offset multiset for `right` is the 90 degree
clockwise rotation of the one for `up`, `down` is the 180 degree rotation,
and `left` is the 270 degree clockwise (90 degree counter-clockwise) one. -/
theorem c7_orientations_are_rotations (hx hy : Int) :
    (relativeOffsets hx hy .right : Multiset (Int × Int)) =
      (relativeOffsets hx hy .up : Multiset (Int × Int)).map rot90cw ∧
    (relativeOffsets hx hy .down : Multiset (Int × Int)) =
      (relativeOffsets hx hy .up : Multiset (Int × Int)).map rot180 ∧
    (relativeOffsets hx hy .left : Multiset (Int × Int)) =
      (relativeOffsets hx hy .up : Multiset (Int × Int)).map rot270cw := by
  simp only [relativeOffsets_eq]
  refine ⟨?_, ?_, ?_⟩ <;> decide

/-! ## Boards and placement validation -/

/-- A board is a 10 by 10 list of rows of cell statuses (`self.boards[...]`). -/
abbrev Board := List (List CellStatus)

def initBoard : Board := List.replicate 10 (List.replicate 10 CellStatus.empty)

/-- `board[y][x]` (all Python accesses are guarded to be in range). -/
def cellAt (b : Board) (x y : Int) : CellStatus :=
  (b.getD y.toNat []).getD x.toNat .empty

/-- `board[y][x] = v`. -/
def setCell (b : Board) (x y : Int) (v : CellStatus) : Board :=
  b.set y.toNat ((b.getD y.toNat []).set x.toNat v)

def inBounds (q : Int × Int) : Prop :=
  0 ≤ q.1 ∧ q.1 < 10 ∧ 0 ≤ q.2 ∧ q.2 < 10

instance (q : Int × Int) : Decidable (inBounds q) := by
  unfold inBounds
  infer_instance

/-- `is_valid_placement` from `domain/game_logic.py`: scans the cells in
order; for each cell the bounds check precedes the overlap check. -/
def is_valid_placement (positions : List (Int × Int)) (board : Board) :
    Bool × String :=
  match positions with
  | [] => (true, "Valid placement")
  | q :: rest =>
    if q.1 < 0 ∨ 10 ≤ q.1 ∨ q.2 < 0 ∨ 10 ≤ q.2 then (false, "Plane out of bounds")
    else if cellAt board q.1 q.2 ≠ .empty then (false, "Plane overlaps with another plane")
    else is_valid_placement rest board

/-! ## Planes and the game aggregate -/

/-- `Plane` (pydantic model in `domain/models.py` / `main.py`). -/
structure Plane where
  positions : List (Int × Int)
  head_position : Int × Int
  orientation : PlaneOrientation
  hit_positions : List (Int × Int) := []
  is_destroyed : Bool := false
deriving DecidableEq, Repr

/-- The result strings of `Game.attack` (`None` is modeled by `Option`). -/
inductive AttackResult where
  | hit
  | head_hit
  | miss
  | already_attacked
deriving DecidableEq, Repr

/-- The cell status written for a `"hit"`/`"head_hit"`/`"miss"` result
(`self.boards[defender][y][x] = result`). -/
def cellOfResult : AttackResult → CellStatus
  | .hit => .hit
  | .head_hit => .head_hit
  | .miss => .miss
  | .already_attacked => .empty

/-- The `Game` aggregate state, shared by `domain/models.py` and `main.py`
(their `__init__` bodies are identical; the game id string and websocket
objects are dropped, player slots become booleans). -/
structure Game where
  players : PlayerMap Bool
  boards : PlayerMap Board
  planes : PlayerMap (List Plane)
  state : GameState
  current_turn : Player
  ready : PlayerMap Bool
deriving DecidableEq, Repr

def initGame : Game :=
  { players := ⟨false, false⟩
    boards := ⟨initBoard, initBoard⟩
    planes := ⟨[], []⟩
    state := .waiting
    current_turn := .p1
    ready := ⟨false, false⟩ }

/-- `Game.add_player` (identical logic in both files): fill the first free
slot; the second join moves the state to `placing`. -/
def Game.add_player (g : Game) : Option Player × Game :=
  if g.players.p1 = false then
    (some .p1, { g with players := { g.players with p1 := true } })
  else if g.players.p2 = false then
    (some .p2, { g with players := { g.players with p2 := true }, state := .placing })
  else (none, g)

/-- `Game.check_winner` (identical in both files): the first player in
order `player1`, `player2` that has placed both planes and lost both loses;
the opponent is returned. -/
def Game.check_winner (g : Game) : Option Player :=
  if (g.planes.get .p1).length = 2 ∧
      (g.planes.get .p1).countP (fun pl => pl.is_destroyed) = 2 then some .p2
  else if (g.planes.get .p2).length = 2 ∧
      (g.planes.get .p2).countP (fun pl => pl.is_destroyed) = 2 then some .p1
  else none

/-- `cell in ("plane", "head") -> "empty"`, else unchanged. -/
def maskCell (c : CellStatus) : CellStatus :=
  if c = .plane ∨ c = .head then .empty else c

/-- `Game.get_masked_board` (identical in both files). -/
def Game.get_masked_board (g : Game) (pid : Player) : Board :=
  (g.boards.get pid.opponent).map (fun row => row.map maskCell)

def Game.mark_player_ready (g : Game) (pid : Player) : Game :=
  if (g.planes.get pid).length = 2 then { g with ready := g.ready.set pid true } else g

def Game.are_both_players_ready (g : Game) : Bool :=
  g.ready.p1 && g.ready.p2

def Game.start_game (g : Game) : Game :=
  if g.are_both_players_ready then { g with state := .playing } else g

def Game.switch_turn (g : Game) : Game :=
  { g with current_turn := g.current_turn.opponent }

def Game.finish_game (g : Game) : Game :=
  { g with state := .finished }

/-- The `for pos in positions` loop of both `place_plane` bodies: mark the
vital cell `head` and every other cell `plane`. -/
def placeCells (b : Board) (positions : List (Int × Int)) (hd : Int × Int) : Board :=
  positions.foldl (fun b q => setCell b q.1 q.2 (if q = hd then .head else .plane)) b

/-! ## The layered engine: `domain/models.py` -/

namespace Domain

/-- `Plane.receive_attack` from `domain/models.py`. -/
def receive_attack (p : Plane) (x y : Int) : Option AttackResult × Plane :=
  if (x, y) = p.head_position then
    (some .head_hit,
      { p with is_destroyed := true, hit_positions := p.hit_positions ++ [(x, y)] })
  else if (x, y) ∈ p.positions then
    (some .hit, { p with hit_positions := p.hit_positions ++ [(x, y)] })
  else (none, p)

/-- The `for plane in self.planes[defender]` loop of `Game.attack`: the
first plane reporting a result is updated, the rest are left alone. -/
def attackPlanes : List Plane → Int → Int → Option AttackResult × List Plane
  | [], _, _ => (none, [])
  | p :: ps, x, y =>
    let r := receive_attack p x y
    match r.1 with
    | some a => (some a, r.2 :: ps)
    | none =>
      let rest := attackPlanes ps x y
      (rest.1, r.2 :: rest.2)

/-- `Game.place_plane` from `domain/models.py`: plane-count check first,
then geometry, then validation, then mutation. -/
def place_plane (g : Game) (pid : Player) (head_x head_y : Int)
    (o : PlaneOrientation) : (Bool × String) × Game :=
  if 2 ≤ (g.planes.get pid).length then ((false, "Already placed 2 planes"), g)
  else
    let pr := get_plane_positions head_x head_y o
    let v := is_valid_placement pr.1 (g.boards.get pid)
    if v.1 = false then ((false, v.2), g)
    else
      ((true, "Plane placed successfully"),
        { g with
          boards := g.boards.set pid (placeCells (g.boards.get pid) pr.1 pr.2)
          planes := g.planes.set pid ((g.planes.get pid) ++
            [{ positions := pr.1, head_position := pr.2, orientation := o }]) })

/-- `Game.attack` from `domain/models.py`: bounds check, already-attacked
check on the board cell, then dispatch through the defender's planes. -/
def attack (g : Game) (attacker : Player) (x y : Int) :
    Option AttackResult × Game :=
  let defender := attacker.opponent
  if x < 0 ∨ 10 ≤ x ∨ y < 0 ∨ 10 ≤ y then (none, g)
  else
    let b := g.boards.get defender
    let cell := cellAt b x y
    if cell = .hit ∨ cell = .head_hit ∨ cell = .miss then (some .already_attacked, g)
    else
      let r := attackPlanes (g.planes.get defender) x y
      match r.1 with
      | some a =>
        (some a,
          { g with boards := g.boards.set defender (setCell b x y (cellOfResult a))
                   planes := g.planes.set defender r.2 })
      | none =>
        (some .miss,
          { g with boards := g.boards.set defender (setCell b x y .miss) })

end Domain

/-! ## The standalone engine: the `Game` class in `main.py` -/

namespace Main

/-- The inline validation loop of `main.py`'s `place_plane` (bounds before
overlap, cell by cell); `none` means the loop fell through. -/
def checkPositions (positions : List (Int × Int)) (board : Board) :
    Option (Bool × String) :=
  match positions with
  | [] => none
  | q :: rest =>
    if q.1 < 0 ∨ 10 ≤ q.1 ∨ q.2 < 0 ∨ 10 ≤ q.2 then some (false, "Plane out of bounds")
    else if cellAt board q.1 q.2 ≠ .empty then some (false, "Plane overlaps with another plane")
    else checkPositions rest board

/-- `Game.place_plane` from `main.py`: geometry and validation first, the
plane-count check only afterwards. -/
def place_plane (g : Game) (pid : Player) (head_x head_y : Int)
    (o : PlaneOrientation) : (Bool × String) × Game :=
  let pr := get_plane_positions head_x head_y o
  match checkPositions pr.1 (g.boards.get pid) with
  | some e => (e, g)
  | none =>
    if 2 ≤ (g.planes.get pid).length then ((false, "Already placed 2 planes"), g)
    else
      ((true, "Plane placed successfully"),
        { g with
          boards := g.boards.set pid (placeCells (g.boards.get pid) pr.1 pr.2)
          planes := g.planes.set pid ((g.planes.get pid) ++
            [{ positions := pr.1, head_position := pr.2, orientation := o }]) })

/-- The `break`ing loop marking a body hit on the first plane containing
the cell. -/
def markHit : List Plane → Int → Int → List Plane
  | [], _, _ => []
  | p :: ps, x, y =>
    if (x, y) ∈ p.positions then
      { p with hit_positions := p.hit_positions ++ [(x, y)] } :: ps
    else p :: markHit ps x y

/-- The `break`ing loop destroying the first plane whose head is the cell. -/
def markHeadHit : List Plane → Int → Int → List Plane
  | [], _, _ => []
  | p :: ps, x, y =>
    if (x, y) = p.head_position then
      { p with is_destroyed := true, hit_positions := p.hit_positions ++ [(x, y)] } :: ps
    else p :: markHeadHit ps x y

/-- `Game.attack` from `main.py`: dispatches on the board cell content. -/
def attack (g : Game) (attacker : Player) (x y : Int) :
    Option AttackResult × Game :=
  let defender := attacker.opponent
  if x < 0 ∨ 10 ≤ x ∨ y < 0 ∨ 10 ≤ y then (none, g)
  else
    let b := g.boards.get defender
    match cellAt b x y with
    | .plane =>
      (some .hit,
        { g with boards := g.boards.set defender (setCell b x y .hit)
                 planes := g.planes.set defender (markHit (g.planes.get defender) x y) })
    | .head =>
      (some .head_hit,
        { g with boards := g.boards.set defender (setCell b x y .head_hit)
                 planes := g.planes.set defender (markHeadHit (g.planes.get defender) x y) })
    | .empty =>
      (some .miss, { g with boards := g.boards.set defender (setCell b x y .miss) })
    | _ => (some .already_attacked, g)

end Main

/-! ## Command handling: `application/game_service.py` and the websocket
loop of `main.py` -/

/-- What a command sends back to the players (the parts of the websocket
replies that depend on the game logic). -/
inductive AttackEvent where
  | ignored
  | notYourTurn
  | invalid
  | resolved (r : AttackResult) (winner : Option Player)
deriving DecidableEq, Repr

inductive Out where
  | joined (p : Option Player)
  | placed (ok : Bool) (msg : String) (count : Nat)
  | attacked (ev : AttackEvent)
deriving DecidableEq, Repr

inductive Cmd where
  | join
  | place (pid : Player) (hx hy : Int) (o : PlaneOrientation)
  | attack (pid : Player) (x y : Int)
deriving DecidableEq, Repr

namespace Service

/-- `GameService.handle_plane_placement`: place, then (even on failure)
mark ready when the side has 2 planes and start the game when both are. -/
def handle_plane_placement (g : Game) (pid : Player) (hx hy : Int)
    (o : PlaneOrientation) : Game × Out :=
  let r := Domain.place_plane g pid hx hy o
  let g1 := r.2
  let g2 :=
    if (g1.planes.get pid).length = 2 then
      let gr := g1.mark_player_ready pid
      if gr.are_both_players_ready then gr.start_game else gr
    else g1
  (g2, .placed r.1.1 r.1.2 (g1.planes.get pid).length)

/-- `GameService.handle_attack`: phase and turn guards, attack, then win
check (finish) or turn switch; `None`/`"already_attacked"` results change
nothing. -/
def handle_attack (g : Game) (pid : Player) (x y : Int) : Game × Out :=
  if g.state ≠ .playing then (g, .attacked .ignored)
  else if g.current_turn ≠ pid then (g, .attacked .notYourTurn)
  else
    let r := Domain.attack g pid x y
    match r.1 with
    | none => (r.2, .attacked .invalid)
    | some .already_attacked => (r.2, .attacked .invalid)
    | some a =>
      match r.2.check_winner with
      | some w => (r.2.finish_game, .attacked (.resolved a (some w)))
      | none => (r.2.switch_turn, .attacked (.resolved a none))

def step (g : Game) : Cmd → Game × Out
  | .join => let r := g.add_player; (r.2, .joined r.1)
  | .place pid hx hy o => handle_plane_placement g pid hx hy o
  | .attack pid x y => handle_attack g pid x y

def run : Game → List Cmd → Game × List Out
  | g, [] => (g, [])
  | g, c :: cs =>
    let r := step g c
    let rest := run r.1 cs
    (rest.1, r.2 :: rest.2)

end Service

namespace Ws

/-- The `place_plane` branch of `websocket_endpoint` in `main.py`. -/
def handle_plane_placement (g : Game) (pid : Player) (hx hy : Int)
    (o : PlaneOrientation) : Game × Out :=
  let r := Main.place_plane g pid hx hy o
  let g1 := r.2
  let g2 :=
    if (g1.planes.get pid).length = 2 then
      let gr := { g1 with ready := g1.ready.set pid true }
      if gr.ready.p1 && gr.ready.p2 then { gr with state := .playing } else gr
    else g1
  (g2, .placed r.1.1 r.1.2 (g1.planes.get pid).length)

/-- The `attack` branch of `websocket_endpoint` in `main.py`. -/
def handle_attack (g : Game) (pid : Player) (x y : Int) : Game × Out :=
  if g.state ≠ .playing then (g, .attacked .ignored)
  else if g.current_turn ≠ pid then (g, .attacked .notYourTurn)
  else
    let r := Main.attack g pid x y
    match r.1 with
    | none => (r.2, .attacked .invalid)
    | some .already_attacked => (r.2, .attacked .invalid)
    | some a =>
      match r.2.check_winner with
      | some w => ({ r.2 with state := .finished }, .attacked (.resolved a (some w)))
      | none =>
        ({ r.2 with current_turn := pid.opponent }, .attacked (.resolved a none))

def step (g : Game) : Cmd → Game × Out
  | .join => let r := g.add_player; (r.2, .joined r.1)
  | .place pid hx hy o => handle_plane_placement g pid hx hy o
  | .attack pid x y => handle_attack g pid x y

def run : Game → List Cmd → Game × List Out
  | g, [] => (g, [])
  | g, c :: cs =>
    let r := step g c
    let rest := run r.1 cs
    (rest.1, r.2 :: rest.2)

end Ws

/-- Match states reachable through the layered engine from a fresh game. -/
inductive Reachable : Game → Prop where
  | init : Reachable initGame
  | step (g : Game) (c : Cmd) : Reachable g → Reachable (Service.step g c).1

theorem Reachable.of_run {g : Game} (h : Reachable g) (cs : List Cmd) :
    Reachable (Service.run g cs).1 := by
  induction cs generalizing g with
  | nil => exact h
  | cons c cs ih => exact ih (Reachable.step g c h)

/-! ## Basic list-board lemmas -/

/-- The shape every board created by `Game.__init__` has. -/
def boardShape (b : Board) : Prop :=
  b.length = 10 ∧ ∀ row ∈ b, row.length = 10

instance (b : Board) : Decidable (boardShape b) := by
  unfold boardShape
  infer_instance

theorem getD_set_self {α : Type} (l : List α) (i : Nat) (v d : α)
    (h : i < l.length) : (l.set i v).getD i d = v := by
  induction l generalizing i with
  | nil => simp at h
  | cons a t ih =>
    cases i with
    | zero => rfl
    | succ n =>
      have hn : n < t.length := by simpa using h
      show (a :: t.set n v).getD (n + 1) d = v
      rw [List.getD_cons_succ]
      exact ih n hn

theorem getD_set_ne {α : Type} (l : List α) (i j : Nat) (v d : α)
    (h : i ≠ j) : (l.set i v).getD j d = l.getD j d := by
  induction l generalizing i j with
  | nil => rfl
  | cons a t ih =>
    cases i with
    | zero =>
      cases j with
      | zero => exact absurd rfl h
      | succ m => rfl
    | succ n =>
      cases j with
      | zero => rfl
      | succ m =>
        show (a :: t.set n v).getD (m + 1) d = (a :: t).getD (m + 1) d
        rw [List.getD_cons_succ, List.getD_cons_succ]
        exact ih n m (fun hh => h (by rw [hh]))

theorem getD_mem {α : Type} (l : List α) (i : Nat) (d : α)
    (h : i < l.length) : l.getD i d ∈ l := by
  induction l generalizing i with
  | nil => simp at h
  | cons a t ih =>
    cases i with
    | zero => exact List.mem_cons_self a t
    | succ n =>
      have hn : n < t.length := by simpa using h
      rw [List.getD_cons_succ]
      exact List.mem_cons_of_mem a (ih n hn)

theorem boardShape_setCell {b : Board} (hb : boardShape b) {x y : Int}
    (h : inBounds (x, y)) (v : CellStatus) : boardShape (setCell b x y v) := by
  obtain ⟨hlen, hrow⟩ := hb
  obtain ⟨hx0, hx1, hy0, hy1⟩ := h
  refine ⟨by simpa [setCell] using hlen, ?_⟩
  intro row hmem
  rcases List.mem_or_eq_of_mem_set hmem with hold | hnew
  · exact hrow row hold
  · have hyt : y.toNat < b.length := by omega
    have := hrow (b.getD y.toNat []) (getD_mem b y.toNat [] hyt)
    rw [hnew, List.length_set]
    exact this

theorem cellAt_setCell_self {b : Board} (hb : boardShape b) {x y : Int}
    (h : inBounds (x, y)) (v : CellStatus) : cellAt (setCell b x y v) x y = v := by
  obtain ⟨hlen, hrow⟩ := hb
  obtain ⟨hx0, hx1, hy0, hy1⟩ := h
  have hyt : y.toNat < b.length := by omega
  unfold cellAt setCell
  rw [getD_set_self b y.toNat _ [] hyt]
  have hr := hrow (b.getD y.toNat []) (getD_mem b y.toNat [] hyt)
  have hxt : x.toNat < (b.getD y.toNat []).length := by omega
  exact getD_set_self _ x.toNat v .empty hxt

theorem cellAt_setCell_other {b : Board} (hb : boardShape b) {x y x' y' : Int}
    (h : inBounds (x, y)) (h' : inBounds (x', y'))
    (hne : ¬(x' = x ∧ y' = y)) (v : CellStatus) :
    cellAt (setCell b x y v) x' y' = cellAt b x' y' := by
  obtain ⟨hlen, hrow⟩ := hb
  obtain ⟨hx0, hx1, hy0, hy1⟩ := h
  obtain ⟨hx0', hx1', hy0', hy1'⟩ := h'
  unfold cellAt setCell
  by_cases hy : y'.toNat = y.toNat
  · have hyy : y' = y := by omega
    have hxx : x' ≠ x := fun hc => hne ⟨hc, hyy⟩
    have hxt : x'.toNat ≠ x.toNat := by omega
    have hyt : y.toNat < b.length := by omega
    rw [hy, getD_set_self b y.toNat _ [] hyt]
    rw [getD_set_ne _ x.toNat x'.toNat v .empty (fun hh => hxt hh.symm)]
  · rw [getD_set_ne b y.toNat y'.toNat _ [] (fun hh => hy hh.symm)]

/-! ## Claim C8: the masked view -/

theorem getD_map {α β : Type} (f : α → β) (l : List α) (n : Nat) (d : α) :
    (l.map f).getD n (f d) = f (l.getD n d) := by
  induction l generalizing n with
  | nil => rfl
  | cons a t ih =>
    cases n with
    | zero => rfl
    | succ m =>
      show (f a :: t.map f).getD (m + 1) (f d) = f ((a :: t).getD (m + 1) d)
      rw [List.getD_cons_succ, List.getD_cons_succ]
      exact ih m

/-- Claim C8: for every board state the masked view (`get_masked_board`)
maps the placement statuses `plane` and `head` to `empty` at the same
coordinates and reproduces every other status unchanged, so the
opponent-facing grid never reveals un-attacked piece geometry. -/
theorem c8_masked_board (g : Game) (pid : Player) (x y : Int) :
    cellAt (g.get_masked_board pid) x y =
      maskCell (cellAt (g.boards.get pid.opponent) x y) ∧
    maskCell .empty = .empty ∧ maskCell .plane = .empty ∧
    maskCell .head = .empty ∧ maskCell .hit = .hit ∧
    maskCell .miss = .miss ∧ maskCell .head_hit = .head_hit := by
  refine ⟨?_, rfl, rfl, rfl, rfl, rfl, rfl⟩
  unfold Game.get_masked_board cellAt
  have h1 : (((g.boards.get pid.opponent).map (fun row => row.map maskCell)).getD
      y.toNat []) = ((g.boards.get pid.opponent).getD y.toNat []).map maskCell :=
    getD_map (fun row : List CellStatus => row.map maskCell)
      (g.boards.get pid.opponent) y.toNat []
  rw [h1]
  exact getD_map maskCell ((g.boards.get pid.opponent).getD y.toNat []) x.toNat .empty

/-! ## Claim C4: which error `is_valid_placement` reports -/

/-- The first cell the validation loop stops at: out of bounds or not
currently empty. -/
def offending (b : Board) (q : Int × Int) : Bool :=
  !(decide (inBounds q)) || decide (cellAt b q.1 q.2 ≠ .empty)

theorem not_oob_iff (q : Int × Int) :
    ¬(q.1 < 0 ∨ 10 ≤ q.1 ∨ q.2 < 0 ∨ 10 ≤ q.2) ↔ inBounds q := by
  unfold inBounds
  omega

/-- Claim C4 (amended): the placement loop reports `"Plane out of bounds"`
iff the first offending cell in scan order (vital cell first, then body
cells in row-major order) is out of bounds, not merely iff some cell is out
of bounds: an earlier in-bounds overlapping cell wins. -/
theorem c4_amended_out_of_bounds_iff (positions : List (Int × Int)) (b : Board) :
    (is_valid_placement positions b).2 = "Plane out of bounds" ↔
      ∃ q, positions.find? (offending b) = some q ∧ ¬ inBounds q := by
  induction positions with
  | nil =>
    simp only [is_valid_placement, List.find?_nil]
    constructor
    · intro h
      exact absurd h (by decide)
    · rintro ⟨q, hq, -⟩
      exact Option.noConfusion hq
  | cons q rest ih =>
    by_cases hoob : q.1 < 0 ∨ 10 ≤ q.1 ∨ q.2 < 0 ∨ 10 ≤ q.2
    · have hnb : ¬ inBounds q := by
        unfold inBounds
        omega
      have hoff : offending b q = true := by
        simp [offending, hnb]
      have hfind : (q :: rest).find? (offending b) = some q :=
        List.find?_cons_of_pos _ hoff
      simp only [is_valid_placement, if_pos hoob, hfind]
      constructor
      · intro _
        exact ⟨q, rfl, hnb⟩
      · intro _
        trivial
    · have hb : inBounds q := (not_oob_iff q).mp hoob
      by_cases hcell : cellAt b q.1 q.2 ≠ .empty
      · have hoff : offending b q = true := by
          simp [offending, hcell]
        have hfind : (q :: rest).find? (offending b) = some q :=
          List.find?_cons_of_pos _ hoff
        simp only [is_valid_placement, if_neg hoob, if_pos hcell, hfind]
        constructor
        · intro hc
          exact absurd hc (by decide)
        · rintro ⟨q', hq', hnb⟩
          cases Option.some.inj hq'
          exact absurd hb hnb
      · have hoff : offending b q = false := by
          have hcl : cellAt b q.1 q.2 = .empty := by
            by_contra hc
            exact hcell hc
          simp [offending, hb, hcl]
        have hstep : List.find? (offending b) (q :: rest) =
            List.find? (offending b) rest := by
          simp [List.find?_cons, hoff]
        simp only [is_valid_placement, if_neg hoob, if_neg hcell]
        rw [hstep]
        exact ih

/-- Claim C4 counterexample: after placing a plane `up` at `(7,0)`, the
placement `up` at `(8,1)` has an out-of-bounds cell (`(10,2)`), yet the
reported error is the overlap error, because the in-bounds overlapping
vital cell is scanned first.  This refutes "rejected with `OutOfBounds`
iff at least one computed cell is out of bounds". -/
theorem c4_counterexample :
    (∃ q ∈ (get_plane_positions 8 1 .up).1, ¬ inBounds q) ∧
    is_valid_placement (get_plane_positions 8 1 .up).1
        ((Domain.place_plane initGame .p1 7 0 .up).2.boards.get .p1) =
      (false, "Plane overlaps with another plane") := by
  decide

/-! ## Unfolding lemmas for the two `attack` implementations -/

theorem receive_attack_head {p : Plane} {x y : Int}
    (h : (x, y) = p.head_position) :
    Domain.receive_attack p x y =
      (some .head_hit,
        { p with is_destroyed := true,
                 hit_positions := p.hit_positions ++ [(x, y)] }) := by
  simp [Domain.receive_attack, h]

theorem receive_attack_body {p : Plane} {x y : Int}
    (h : (x, y) ≠ p.head_position) (hm : (x, y) ∈ p.positions) :
    Domain.receive_attack p x y =
      (some .hit, { p with hit_positions := p.hit_positions ++ [(x, y)] }) := by
  simp [Domain.receive_attack, h, hm]

theorem receive_attack_none {p : Plane} {x y : Int}
    (h : (x, y) ≠ p.head_position) (hm : (x, y) ∉ p.positions) :
    Domain.receive_attack p x y = (none, p) := by
  simp [Domain.receive_attack, h, hm]

theorem attackPlanes_cons_some {p p' : Plane} {ps : List Plane} {x y : Int}
    {a : AttackResult} (hr : Domain.receive_attack p x y = (some a, p')) :
    Domain.attackPlanes (p :: ps) x y = (some a, p' :: ps) := by
  simp [Domain.attackPlanes, hr]

theorem attackPlanes_cons_none {p : Plane} {ps : List Plane} {x y : Int}
    (hr : Domain.receive_attack p x y = (none, p)) :
    Domain.attackPlanes (p :: ps) x y =
      ((Domain.attackPlanes ps x y).1, p :: (Domain.attackPlanes ps x y).2) := by
  simp [Domain.attackPlanes, hr]

theorem attackPlanes_fst_ne_already (ps : List Plane) (x y : Int) :
    (Domain.attackPlanes ps x y).1 ≠ some .already_attacked ∧
    (Domain.attackPlanes ps x y).1 ≠ some .miss := by
  induction ps with
  | nil => simp [Domain.attackPlanes]
  | cons p ps ih =>
    by_cases hh : (x, y) = p.head_position
    · rw [attackPlanes_cons_some (receive_attack_head hh)]
      simp
    · by_cases hm : (x, y) ∈ p.positions
      · rw [attackPlanes_cons_some (receive_attack_body hh hm)]
        simp
      · rw [attackPlanes_cons_none (receive_attack_none hh hm)]
        exact ih

theorem attackPlanes_length (ps : List Plane) (x y : Int) :
    (Domain.attackPlanes ps x y).2.length = ps.length := by
  induction ps with
  | nil => rfl
  | cons p ps ih =>
    by_cases hh : (x, y) = p.head_position
    · rw [attackPlanes_cons_some (receive_attack_head hh)]
      simp
    · by_cases hm : (x, y) ∈ p.positions
      · rw [attackPlanes_cons_some (receive_attack_body hh hm)]
        simp
      · rw [attackPlanes_cons_none (receive_attack_none hh hm)]
        simpa using ih

theorem domain_attack_oob {g : Game} {a : Player} {x y : Int}
    (hb : x < 0 ∨ 10 ≤ x ∨ y < 0 ∨ 10 ≤ y) :
    Domain.attack g a x y = (none, g) := by
  simp [Domain.attack, hb]

theorem domain_attack_already {g : Game} {a : Player} {x y : Int}
    (hb : ¬(x < 0 ∨ 10 ≤ x ∨ y < 0 ∨ 10 ≤ y))
    (hc : cellAt (g.boards.get a.opponent) x y = .hit ∨
          cellAt (g.boards.get a.opponent) x y = .head_hit ∨
          cellAt (g.boards.get a.opponent) x y = .miss) :
    Domain.attack g a x y = (some .already_attacked, g) := by
  simp [Domain.attack, hb, hc]

theorem domain_attack_planes_some {g : Game} {a : Player} {x y : Int}
    {r : AttackResult} {ps' : List Plane}
    (hb : ¬(x < 0 ∨ 10 ≤ x ∨ y < 0 ∨ 10 ≤ y))
    (hc : ¬(cellAt (g.boards.get a.opponent) x y = .hit ∨
            cellAt (g.boards.get a.opponent) x y = .head_hit ∨
            cellAt (g.boards.get a.opponent) x y = .miss))
    (hA : Domain.attackPlanes (g.planes.get a.opponent) x y = (some r, ps')) :
    Domain.attack g a x y =
      (some r,
        { g with
          boards := g.boards.set a.opponent
            (setCell (g.boards.get a.opponent) x y (cellOfResult r))
          planes := g.planes.set a.opponent ps' }) := by
  simp [Domain.attack, hb, hc, hA]

theorem domain_attack_planes_none {g : Game} {a : Player} {x y : Int}
    {ps' : List Plane}
    (hb : ¬(x < 0 ∨ 10 ≤ x ∨ y < 0 ∨ 10 ≤ y))
    (hc : ¬(cellAt (g.boards.get a.opponent) x y = .hit ∨
            cellAt (g.boards.get a.opponent) x y = .head_hit ∨
            cellAt (g.boards.get a.opponent) x y = .miss))
    (hA : Domain.attackPlanes (g.planes.get a.opponent) x y = (none, ps')) :
    Domain.attack g a x y =
      (some .miss,
        { g with
          boards := g.boards.set a.opponent
            (setCell (g.boards.get a.opponent) x y .miss) }) := by
  simp [Domain.attack, hb, hc, hA]

theorem main_attack_oob {g : Game} {a : Player} {x y : Int}
    (hb : x < 0 ∨ 10 ≤ x ∨ y < 0 ∨ 10 ≤ y) :
    Main.attack g a x y = (none, g) := by
  simp [Main.attack, hb]

theorem main_attack_cell {g : Game} {a : Player} {x y : Int}
    (hb : ¬(x < 0 ∨ 10 ≤ x ∨ y < 0 ∨ 10 ≤ y)) :
    Main.attack g a x y =
      (match cellAt (g.boards.get a.opponent) x y with
       | .plane =>
         (some .hit,
           { g with
             boards := g.boards.set a.opponent
               (setCell (g.boards.get a.opponent) x y .hit)
             planes := g.planes.set a.opponent
               (Main.markHit (g.planes.get a.opponent) x y) })
       | .head =>
         (some .head_hit,
           { g with
             boards := g.boards.set a.opponent
               (setCell (g.boards.get a.opponent) x y .head_hit)
             planes := g.planes.set a.opponent
               (Main.markHeadHit (g.planes.get a.opponent) x y) })
       | .empty =>
         (some .miss,
           { g with
             boards := g.boards.set a.opponent
               (setCell (g.boards.get a.opponent) x y .miss) })
       | _ => (some .already_attacked, g)) := by
  simp [Main.attack, hb]

theorem PlayerMap.get_set_self {α : Type} (m : PlayerMap α) (p : Player) (v : α) :
    (m.set p v).get p = v := by
  cases p <;> rfl

theorem PlayerMap.get_set_other {α : Type} (m : PlayerMap α) (p p' : Player) (v : α)
    (h : p' ≠ p) : (m.set p v).get p' = m.get p' := by
  cases p <;> cases p' <;> first | rfl | exact absurd rfl h

theorem Player.opponent_ne (p : Player) : p.opponent ≠ p := by
  cases p <;> decide

theorem Player.opponent_opponent (p : Player) : p.opponent.opponent = p := by
  cases p <;> rfl

/-- The attacked board cell is none of the three attack-outcome statuses
(and the coordinates are in range): the attack will resolve. -/
def freshCond (g : Game) (a : Player) (x y : Int) : Prop :=
  ¬(x < 0 ∨ 10 ≤ x ∨ y < 0 ∨ 10 ≤ y) ∧
  ¬(cellAt (g.boards.get a.opponent) x y = .hit ∨
    cellAt (g.boards.get a.opponent) x y = .head_hit ∨
    cellAt (g.boards.get a.opponent) x y = .miss)

/-- Exhaustive case split over `Domain.attack`. -/
theorem domain_attack_cases (g : Game) (a : Player) (x y : Int) :
    ((x < 0 ∨ 10 ≤ x ∨ y < 0 ∨ 10 ≤ y) ∧ Domain.attack g a x y = (none, g)) ∨
    (¬(x < 0 ∨ 10 ≤ x ∨ y < 0 ∨ 10 ≤ y) ∧
      (cellAt (g.boards.get a.opponent) x y = .hit ∨
       cellAt (g.boards.get a.opponent) x y = .head_hit ∨
       cellAt (g.boards.get a.opponent) x y = .miss) ∧
      Domain.attack g a x y = (some .already_attacked, g)) ∨
    (∃ r ps', freshCond g a x y ∧ (r = .hit ∨ r = .head_hit) ∧
      Domain.attackPlanes (g.planes.get a.opponent) x y = (some r, ps') ∧
      Domain.attack g a x y =
        (some r,
          { g with
            boards := g.boards.set a.opponent
              (setCell (g.boards.get a.opponent) x y (cellOfResult r))
            planes := g.planes.set a.opponent ps' })) ∨
    (∃ ps', freshCond g a x y ∧
      Domain.attackPlanes (g.planes.get a.opponent) x y = (none, ps') ∧
      Domain.attack g a x y =
        (some .miss,
          { g with
            boards := g.boards.set a.opponent
              (setCell (g.boards.get a.opponent) x y .miss) })) := by
  by_cases hb : x < 0 ∨ 10 ≤ x ∨ y < 0 ∨ 10 ≤ y
  · exact Or.inl ⟨hb, domain_attack_oob hb⟩
  · by_cases hc : cellAt (g.boards.get a.opponent) x y = .hit ∨
        cellAt (g.boards.get a.opponent) x y = .head_hit ∨
        cellAt (g.boards.get a.opponent) x y = .miss
    · exact Or.inr (Or.inl ⟨hb, hc, domain_attack_already hb hc⟩)
    · rcases hA : Domain.attackPlanes (g.planes.get a.opponent) x y with ⟨r1, ps'⟩
      cases r1 with
      | none =>
        exact Or.inr (Or.inr (Or.inr
          ⟨ps', ⟨hb, hc⟩, rfl, domain_attack_planes_none hb hc hA⟩))
      | some r =>
        have hne := attackPlanes_fst_ne_already (g.planes.get a.opponent) x y
        rw [hA] at hne
        have hr : r = .hit ∨ r = .head_hit := by
          cases r with
          | hit => exact Or.inl rfl
          | head_hit => exact Or.inr rfl
          | miss => exact ((by simpa using hne.2 : False)).elim
          | already_attacked => exact ((by simpa using hne.1 : False)).elim
        exact Or.inr (Or.inr (Or.inl
          ⟨r, ps', ⟨hb, hc⟩, hr, rfl, domain_attack_planes_some hb hc hA⟩))

theorem domain_attack_preserves (g : Game) (a : Player) (x y : Int) :
    (Domain.attack g a x y).2.state = g.state ∧
    (Domain.attack g a x y).2.current_turn = g.current_turn ∧
    (Domain.attack g a x y).2.players = g.players ∧
    (Domain.attack g a x y).2.ready = g.ready ∧
    (Domain.attack g a x y).2.boards.get a = g.boards.get a ∧
    (Domain.attack g a x y).2.planes.get a = g.planes.get a := by
  rcases domain_attack_cases g a x y with ⟨-, h⟩ | ⟨-, -, h⟩ |
    ⟨r, ps', -, -, -, h⟩ | ⟨ps', -, -, h⟩ <;>
    rw [h] <;>
    simp [PlayerMap.get_set_other _ _ _ _ (Ne.symm (Player.opponent_ne a))]

theorem domain_attack_none_unchanged {g : Game} {a : Player} {x y : Int}
    (h : (Domain.attack g a x y).1 = none) : Domain.attack g a x y = (none, g) := by
  rcases domain_attack_cases g a x y with ⟨-, he⟩ | ⟨-, -, he⟩ |
    ⟨r, ps', -, -, -, he⟩ | ⟨ps', -, -, he⟩ <;> rw [he] at h ⊢ <;> simp_all

theorem domain_attack_already_unchanged {g : Game} {a : Player} {x y : Int}
    (h : (Domain.attack g a x y).1 = some .already_attacked) :
    Domain.attack g a x y = (some .already_attacked, g) := by
  rcases domain_attack_cases g a x y with ⟨-, he⟩ | ⟨-, -, he⟩ |
    ⟨r, ps', -, hr, -, he⟩ | ⟨ps', -, -, he⟩
  · rw [he] at h
    simp at h
  · exact he
  · rw [he] at h
    rcases hr with hr | hr <;> simp [hr] at h
  · rw [he] at h
    simp at h

theorem main_attack_already_unchanged {g : Game} {a : Player} {x y : Int}
    (h : (Main.attack g a x y).1 = some .already_attacked) :
    Main.attack g a x y = (some .already_attacked, g) := by
  by_cases hb : x < 0 ∨ 10 ≤ x ∨ y < 0 ∨ 10 ≤ y
  · rw [main_attack_oob hb] at h
    simp at h
  · rw [main_attack_cell hb] at h ⊢
    rcases hcell : cellAt (g.boards.get a.opponent) x y <;> simp_all

/-! ## Branch lemmas for the two command handlers -/

theorem service_attack_not_playing {g : Game} {pid : Player} {x y : Int}
    (h : g.state ≠ .playing) :
    Service.handle_attack g pid x y = (g, .attacked .ignored) := by
  simp [Service.handle_attack, h]

theorem service_attack_wrong_turn {g : Game} {pid : Player} {x y : Int}
    (hs : g.state = .playing) (ht : g.current_turn ≠ pid) :
    Service.handle_attack g pid x y = (g, .attacked .notYourTurn) := by
  simp [Service.handle_attack, hs, ht]

theorem service_attack_none {g g1 : Game} {pid : Player} {x y : Int}
    (hs : g.state = .playing) (ht : g.current_turn = pid)
    (ha : Domain.attack g pid x y = (none, g1)) :
    Service.handle_attack g pid x y = (g1, .attacked .invalid) := by
  simp [Service.handle_attack, hs, ht, ha]

theorem service_attack_already {g g1 : Game} {pid : Player} {x y : Int}
    (hs : g.state = .playing) (ht : g.current_turn = pid)
    (ha : Domain.attack g pid x y = (some .already_attacked, g1)) :
    Service.handle_attack g pid x y = (g1, .attacked .invalid) := by
  simp [Service.handle_attack, hs, ht, ha]

theorem service_attack_win {g g1 : Game} {pid : Player} {x y : Int}
    {r : AttackResult} {w : Player}
    (hs : g.state = .playing) (ht : g.current_turn = pid)
    (ha : Domain.attack g pid x y = (some r, g1))
    (hr : r = .hit ∨ r = .head_hit ∨ r = .miss)
    (hw : g1.check_winner = some w) :
    Service.handle_attack g pid x y =
      (g1.finish_game, .attacked (.resolved r (some w))) := by
  rcases hr with hr | hr | hr <;> subst hr <;>
    simp [Service.handle_attack, hs, ht, ha, hw]

theorem service_attack_cont {g g1 : Game} {pid : Player} {x y : Int}
    {r : AttackResult}
    (hs : g.state = .playing) (ht : g.current_turn = pid)
    (ha : Domain.attack g pid x y = (some r, g1))
    (hr : r = .hit ∨ r = .head_hit ∨ r = .miss)
    (hw : g1.check_winner = none) :
    Service.handle_attack g pid x y =
      (g1.switch_turn, .attacked (.resolved r none)) := by
  rcases hr with hr | hr | hr <;> subst hr <;>
    simp [Service.handle_attack, hs, ht, ha, hw]

/-! ## Concrete runs used by counterexamples and witnesses -/

/-- Join both players and place both planes for each side. -/
def csPlaced : List Cmd :=
  [.join, .join, .place .p1 2 0 .up, .place .p1 2 4 .up,
   .place .p2 2 0 .up, .place .p2 2 4 .up]

def gPlaced : Game := (Service.run initGame csPlaced).1

/-- After `csPlaced`, play until `p1` has destroyed one of `p2`'s planes
and it is `p1`'s turn again. -/
def gAlmost : Game :=
  (Service.run initGame (csPlaced ++ [.attack .p1 2 0, .attack .p2 9 9])).1

/-- A full match: `p1` destroys both of `p2`'s planes and wins. -/
def csFinished : List Cmd :=
  csPlaced ++ [.attack .p1 2 0, .attack .p2 9 9, .attack .p1 2 4]

def gFinished : Game := (Service.run initGame csFinished).1

/-- A placement request sent after the match finished: `place_plane` fails,
but the handler still re-marks the sender ready and restarts the game. -/
def gRegressed : Game := (Service.step gFinished (.place .p2 0 0 .up)).1

/-- After `gPlaced`, `p1` misses at `(0,0)`, `p2` misses at `(9,9)`, and it
is `p1`'s turn with `(0,0)` already attacked on `p2`'s board. -/
def gRepeat : Game :=
  (Service.run gPlaced [.attack .p1 0 0, .attack .p2 9 9]).1

/-! ## Claim C6: `already_attacked` is a no-op -/

/-- Claim C6: when an attack command in the `playing` phase by the side
whose turn it is comes back `already_attacked`, both command handlers leave
the whole game state unchanged: the turn does not flip and the phase does
not change, so the same attacker may immediately attack again. -/
theorem c6_already_attacked_keeps_turn_and_phase (g : Game) (pid : Player)
    (x y : Int) (hs : g.state = .playing) (ht : g.current_turn = pid)
    (hA : (Domain.attack g pid x y).1 = some .already_attacked)
    (hA2 : (Main.attack g pid x y).1 = some .already_attacked) :
    Service.handle_attack g pid x y = (g, .attacked .invalid) ∧
    (Service.handle_attack g pid x y).1.current_turn = g.current_turn ∧
    (Service.handle_attack g pid x y).1.state = g.state ∧
    Ws.handle_attack g pid x y = (g, .attacked .invalid) ∧
    (Ws.handle_attack g pid x y).1.current_turn = g.current_turn ∧
    (Ws.handle_attack g pid x y).1.state = g.state := by
  have h1 := domain_attack_already_unchanged hA
  have h2 := main_attack_already_unchanged hA2
  have hserv : Service.handle_attack g pid x y = (g, .attacked .invalid) :=
    service_attack_already hs ht h1
  have hws : Ws.handle_attack g pid x y = (g, .attacked .invalid) := by
    simp [Ws.handle_attack, hs, ht, h2]
  exact ⟨hserv, by rw [hserv], by rw [hserv], hws, by rw [hws], by rw [hws]⟩

theorem c6_witness :
    (gRepeat.state = .playing ∧ gRepeat.current_turn = .p1 ∧
      (Domain.attack gRepeat .p1 0 0).1 = some .already_attacked ∧
      (Main.attack gRepeat .p1 0 0).1 = some .already_attacked) ∧
    Service.handle_attack gRepeat .p1 0 0 = (gRepeat, .attacked .invalid) ∧
    Ws.handle_attack gRepeat .p1 0 0 = (gRepeat, .attacked .invalid) :=
  ⟨⟨by decide, by decide, by decide, by decide⟩,
   (c6_already_attacked_keeps_turn_and_phase gRepeat .p1 0 0
     (by decide) (by decide) (by decide) (by decide)).1,
   (c6_already_attacked_keeps_turn_and_phase gRepeat .p1 0 0
     (by decide) (by decide) (by decide) (by decide)).2.2.2.1⟩

/-! ## Claim C2: the finish transition and `check_winner` -/

/-- A side has placed both planes and lost both. -/
def bothDestroyed (g : Game) (p : Player) : Prop :=
  (g.planes.get p).length = 2 ∧
  (g.planes.get p).countP (fun pl => pl.is_destroyed) = 2

instance (g : Game) (p : Player) : Decidable (bothDestroyed g p) := by
  unfold bothDestroyed
  infer_instance

theorem check_winner_spec (g : Game) :
    (g.check_winner = none ↔ ∀ p, ¬ bothDestroyed g p) ∧
    (∀ w, g.check_winner = some w → ∃ p, bothDestroyed g p ∧ w = p.opponent) := by
  unfold Game.check_winner
  by_cases h1 : (g.planes.get .p1).length = 2 ∧
      (g.planes.get .p1).countP (fun pl => pl.is_destroyed) = 2
  · rw [if_pos h1]
    constructor
    · constructor
      · intro hc
        exact Option.noConfusion hc
      · intro hall
        exact absurd h1 (hall .p1)
    · intro w hw
      exact ⟨.p1, h1, (Option.some.inj hw).symm⟩
  · rw [if_neg h1]
    by_cases h2 : (g.planes.get .p2).length = 2 ∧
        (g.planes.get .p2).countP (fun pl => pl.is_destroyed) = 2
    · rw [if_pos h2]
      constructor
      · constructor
        · intro hc
          exact Option.noConfusion hc
        · intro hall
          exact absurd h2 (hall .p2)
      · intro w hw
        exact ⟨.p2, h2, (Option.some.inj hw).symm⟩
    · rw [if_neg h2]
      constructor
      · constructor
        · intro _ p
          cases p
          · exact h1
          · exact h2
        · intro _
          rfl
      · intro w hw
        exact Option.noConfusion hw

theorem finish_game_check_winner (g : Game) :
    (Game.finish_game g).check_winner = g.check_winner := rfl

theorem switch_turn_check_winner (g : Game) :
    (Game.switch_turn g).check_winner = g.check_winner := rfl

/-- Claim C2 (amended): starting from a `playing` state, an attack command
moves the phase to `finished` exactly when the attack resolved (was not
rejected or `already_attacked`) and `check_winner` of the post-state reports
a winner; the winner broadcast with the `resolved` event is exactly
`check_winner` of the post-state, which is the opponent of a side whose
both placed planes are destroyed, and is `none` whenever no side with two
placed planes has both destroyed.  (The unqualified per-state version of
the claim fails: see the counterexample.) -/
theorem service_attack_pair_eta {g : Game} {pid : Player} {x y : Int}
    {r : AttackResult} (hcase : (Domain.attack g pid x y).1 = some r) :
    Domain.attack g pid x y = (some r, (Domain.attack g pid x y).2) := by
  rw [← hcase]

theorem c2_coreA (g : Game) (pid : Player) (x y : Int)
    (hs : g.state = .playing) :
    (Service.handle_attack g pid x y).1.state = .finished ↔
      (∃ r w, (Service.handle_attack g pid x y).2 = .attacked (.resolved r w)) ∧
      (Service.handle_attack g pid x y).1.check_winner ≠ none := by
  by_cases ht : g.current_turn = pid
  · rcases hcase : (Domain.attack g pid x y).1 with _ | r
    · rw [service_attack_none hs ht (domain_attack_none_unchanged hcase)]
      simp [hs]
    · by_cases hra : r = .already_attacked
      · subst hra
        rw [service_attack_already hs ht (domain_attack_already_unchanged hcase)]
        simp [hs]
      · have hr3 : r = .hit ∨ r = .head_hit ∨ r = .miss := by
          cases r <;> simp_all
        have he' := service_attack_pair_eta hcase
        have hstate : (Domain.attack g pid x y).2.state = g.state :=
          (domain_attack_preserves g pid x y).1
        rcases hw : (Domain.attack g pid x y).2.check_winner with _ | w
        · rw [service_attack_cont hs ht he' hr3 hw]
          constructor
          · intro hfin
            rw [show (Game.switch_turn (Domain.attack g pid x y).2).state =
              (Domain.attack g pid x y).2.state from rfl, hstate, hs] at hfin
            exact absurd hfin (by decide)
          · rintro ⟨-, hcw⟩
            rw [switch_turn_check_winner, hw] at hcw
            exact absurd rfl hcw
        · rw [service_attack_win hs ht he' hr3 hw]
          constructor
          · intro _
            refine ⟨⟨r, some w, rfl⟩, ?_⟩
            rw [finish_game_check_winner, hw]
            simp
          · intro _
            rfl
  · rw [service_attack_wrong_turn hs ht]
    simp [hs]

theorem c2_coreB (g : Game) (pid : Player) (x y : Int)
    (hs : g.state = .playing) :
    ∀ r w, (Service.handle_attack g pid x y).2 = .attacked (.resolved r w) →
      (Service.handle_attack g pid x y).1.check_winner = w := by
  by_cases ht : g.current_turn = pid
  · rcases hcase : (Domain.attack g pid x y).1 with _ | r
    · rw [service_attack_none hs ht (domain_attack_none_unchanged hcase)]
      intro r w h
      simp at h
    · by_cases hra : r = .already_attacked
      · subst hra
        rw [service_attack_already hs ht (domain_attack_already_unchanged hcase)]
        intro r w h
        simp at h
      · have hr3 : r = .hit ∨ r = .head_hit ∨ r = .miss := by
          cases r <;> simp_all
        have he' := service_attack_pair_eta hcase
        rcases hw : (Domain.attack g pid x y).2.check_winner with _ | w
        · rw [service_attack_cont hs ht he' hr3 hw]
          intro r' w' h
          simp only [Out.attacked.injEq, AttackEvent.resolved.injEq] at h
          rw [switch_turn_check_winner, hw, h.2]
        · rw [service_attack_win hs ht he' hr3 hw]
          intro r' w' h
          simp only [Out.attacked.injEq, AttackEvent.resolved.injEq] at h
          rw [finish_game_check_winner, hw, h.2]
  · rw [service_attack_wrong_turn hs ht]
    intro r w h
    simp at h

/-- Claim C2 (amended): starting from a `playing` state, an attack command
moves the phase to `finished` exactly when the attack resolved (was not
rejected or `already_attacked`) and `check_winner` of the post-state reports
a winner; the winner broadcast with the `resolved` event is exactly
`check_winner` of the post-state, which is the opponent of a side whose
both placed planes are destroyed, and is `none` whenever no side with two
placed planes has both destroyed.  (The unqualified per-state version of
the claim fails: see the counterexample.) -/
theorem c2_amended_finish_iff (g : Game) (pid : Player) (x y : Int)
    (hs : g.state = .playing) :
    ((Service.handle_attack g pid x y).1.state = .finished ↔
      (∃ r w, (Service.handle_attack g pid x y).2 = .attacked (.resolved r w)) ∧
      (Service.handle_attack g pid x y).1.check_winner ≠ none) ∧
    (∀ r w, (Service.handle_attack g pid x y).2 = .attacked (.resolved r w) →
      (Service.handle_attack g pid x y).1.check_winner = w) ∧
    (∀ g' : Game,
      (g'.check_winner = none ↔ ∀ p, ¬ bothDestroyed g' p) ∧
      (∀ w, g'.check_winner = some w → ∃ p, bothDestroyed g' p ∧ w = p.opponent)) :=
  ⟨c2_coreA g pid x y hs, c2_coreB g pid x y hs, fun g' => check_winner_spec g'⟩

/-- Claim C2 counterexample: a reachable state in which `player2`'s both
placed planes are destroyed while the phase is `playing`, not `finished`:
after the match finished, a further `place_plane` command made the handler
re-run the both-ready check and restart the game.  This refutes "the match
phase becomes `Finished` exactly when one side's both placed pieces are
destroyed" read over all reachable states. -/
theorem c2_counterexample :
    Reachable gRegressed ∧ gRegressed.state = .playing ∧
    bothDestroyed gRegressed .p2 := by
  refine ⟨?_, by decide, by decide⟩
  exact Reachable.step gFinished (.place .p2 0 0 .up)
    (Reachable.of_run Reachable.init csFinished)

theorem c2_witness :
    gAlmost.state = .playing ∧
    ((Service.handle_attack gAlmost .p1 2 4).1.state = .finished ↔
      (∃ r w, (Service.handle_attack gAlmost .p1 2 4).2 = .attacked (.resolved r w)) ∧
      (Service.handle_attack gAlmost .p1 2 4).1.check_winner ≠ none) :=
  ⟨by decide, (c2_amended_finish_iff gAlmost .p1 2 4 (by decide)).1⟩

/-! ## Claim C3: attacking the same cell twice -/

theorem main_attack_already {g : Game} {a : Player} {x y : Int}
    (hb : ¬(x < 0 ∨ 10 ≤ x ∨ y < 0 ∨ 10 ≤ y))
    (hc : cellAt (g.boards.get a.opponent) x y = .hit ∨
          cellAt (g.boards.get a.opponent) x y = .miss ∨
          cellAt (g.boards.get a.opponent) x y = .head_hit) :
    Main.attack g a x y = (some .already_attacked, g) := by
  rcases hc with h | h | h <;> rw [main_attack_cell hb, h]

theorem domain_attack_fresh_spec (g : Game) (pid : Player) (x y : Int)
    (hshape : boardShape (g.boards.get pid.opponent)) (hb : inBounds (x, y))
    (hfresh : ¬(cellAt (g.boards.get pid.opponent) x y = .hit ∨
                cellAt (g.boards.get pid.opponent) x y = .head_hit ∨
                cellAt (g.boards.get pid.opponent) x y = .miss)) :
    (∃ r, (Domain.attack g pid x y).1 = some r ∧
      (r = .hit ∨ r = .head_hit ∨ r = .miss) ∧
      cellAt ((Domain.attack g pid x y).2.boards.get pid.opponent) x y =
        cellOfResult r) ∧
    (∀ x' y', inBounds (x', y') → ¬(x' = x ∧ y' = y) →
      cellAt ((Domain.attack g pid x y).2.boards.get pid.opponent) x' y' =
        cellAt (g.boards.get pid.opponent) x' y') ∧
    (Domain.attack g pid x y).2.boards.get pid = g.boards.get pid ∧
    Domain.attack (Domain.attack g pid x y).2 pid x y =
      (some .already_attacked, (Domain.attack g pid x y).2) := by
  have hb' : ¬(x < 0 ∨ 10 ≤ x ∨ y < 0 ∨ 10 ≤ y) := by
    have := (not_oob_iff (x, y)).mpr hb
    simpa using this
  rcases domain_attack_cases g pid x y with ⟨hoob, -⟩ | ⟨-, hc, -⟩ |
    ⟨r, ps', -, hr, hA, he⟩ | ⟨ps', -, hA, he⟩
  · exact absurd hoob hb'
  · exact absurd hc hfresh
  · have hbget : (Domain.attack g pid x y).2.boards.get pid.opponent =
        setCell (g.boards.get pid.opponent) x y (cellOfResult r) := by
      rw [he]
      exact PlayerMap.get_set_self _ _ _
    have hcell : cellAt ((Domain.attack g pid x y).2.boards.get pid.opponent) x y =
        cellOfResult r := by
      rw [hbget]
      exact cellAt_setCell_self hshape hb _
    have hr3 : r = .hit ∨ r = .head_hit ∨ r = .miss := by
      rcases hr with hr | hr
      · exact Or.inl hr
      · exact Or.inr (Or.inl hr)
    refine ⟨⟨r, by rw [he], hr3, hcell⟩, ?_, ?_, ?_⟩
    · intro x' y' h' hne
      rw [hbget]
      exact cellAt_setCell_other hshape hb h' hne _
    · rw [he]
      exact PlayerMap.get_set_other _ _ _ _ (Ne.symm (Player.opponent_ne pid))
    · have hc' : cellAt ((Domain.attack g pid x y).2.boards.get pid.opponent) x y = .hit ∨
          cellAt ((Domain.attack g pid x y).2.boards.get pid.opponent) x y = .head_hit ∨
          cellAt ((Domain.attack g pid x y).2.boards.get pid.opponent) x y = .miss := by
        rw [hcell]
        rcases hr with hr | hr <;> simp [hr, cellOfResult]
      exact domain_attack_already hb' hc'
  · have hbget : (Domain.attack g pid x y).2.boards.get pid.opponent =
        setCell (g.boards.get pid.opponent) x y .miss := by
      rw [he]
      exact PlayerMap.get_set_self _ _ _
    have hcell : cellAt ((Domain.attack g pid x y).2.boards.get pid.opponent) x y =
        CellStatus.miss := by
      rw [hbget]
      exact cellAt_setCell_self hshape hb _
    refine ⟨⟨.miss, by rw [he], Or.inr (Or.inr rfl), hcell⟩, ?_, ?_, ?_⟩
    · intro x' y' h' hne
      rw [hbget]
      exact cellAt_setCell_other hshape hb h' hne _
    · rw [he]
      exact PlayerMap.get_set_other _ _ _ _ (Ne.symm (Player.opponent_ne pid))
    · exact domain_attack_already hb' (Or.inr (Or.inr hcell))

theorem main_attack_fresh_spec (g : Game) (pid : Player) (x y : Int)
    (hshape : boardShape (g.boards.get pid.opponent)) (hb : inBounds (x, y))
    (hfresh : ¬(cellAt (g.boards.get pid.opponent) x y = .hit ∨
                cellAt (g.boards.get pid.opponent) x y = .head_hit ∨
                cellAt (g.boards.get pid.opponent) x y = .miss)) :
    (∃ r, (Main.attack g pid x y).1 = some r ∧
      (r = .hit ∨ r = .head_hit ∨ r = .miss) ∧
      cellAt ((Main.attack g pid x y).2.boards.get pid.opponent) x y =
        cellOfResult r) ∧
    (∀ x' y', inBounds (x', y') → ¬(x' = x ∧ y' = y) →
      cellAt ((Main.attack g pid x y).2.boards.get pid.opponent) x' y' =
        cellAt (g.boards.get pid.opponent) x' y') ∧
    (Main.attack g pid x y).2.boards.get pid = g.boards.get pid ∧
    Main.attack (Main.attack g pid x y).2 pid x y =
      (some .already_attacked, (Main.attack g pid x y).2) := by
  have hb' : ¬(x < 0 ∨ 10 ≤ x ∨ y < 0 ∨ 10 ≤ y) := by
    have := (not_oob_iff (x, y)).mpr hb
    simpa using this
  have hmain := main_attack_cell (g := g) (a := pid) hb'
  rcases hcl : cellAt (g.boards.get pid.opponent) x y
  case hit => exact absurd (Or.inl hcl) hfresh
  case head_hit => exact absurd (Or.inr (Or.inl hcl)) hfresh
  case miss => exact absurd (Or.inr (Or.inr hcl)) hfresh
  case empty =>
    have he : Main.attack g pid x y =
        (some .miss,
          { g with
            boards := g.boards.set pid.opponent
              (setCell (g.boards.get pid.opponent) x y .miss) }) := by
      rw [hmain, hcl]
    have hbget : (Main.attack g pid x y).2.boards.get pid.opponent =
        setCell (g.boards.get pid.opponent) x y .miss := by
      rw [he]
      exact PlayerMap.get_set_self _ _ _
    have hcell : cellAt ((Main.attack g pid x y).2.boards.get pid.opponent) x y =
        CellStatus.miss := by
      rw [hbget]
      exact cellAt_setCell_self hshape hb _
    refine ⟨⟨.miss, by rw [he], Or.inr (Or.inr rfl), hcell⟩, ?_, ?_, ?_⟩
    · intro x' y' h' hne
      rw [hbget]
      exact cellAt_setCell_other hshape hb h' hne _
    · rw [he]
      exact PlayerMap.get_set_other _ _ _ _ (Ne.symm (Player.opponent_ne pid))
    · exact main_attack_already hb' (Or.inr (Or.inl hcell))
  case plane =>
    have he : Main.attack g pid x y =
        (some .hit,
          { g with
            boards := g.boards.set pid.opponent
              (setCell (g.boards.get pid.opponent) x y .hit)
            planes := g.planes.set pid.opponent
              (Main.markHit (g.planes.get pid.opponent) x y) }) := by
      rw [hmain, hcl]
    have hbget : (Main.attack g pid x y).2.boards.get pid.opponent =
        setCell (g.boards.get pid.opponent) x y .hit := by
      rw [he]
      exact PlayerMap.get_set_self _ _ _
    have hcell : cellAt ((Main.attack g pid x y).2.boards.get pid.opponent) x y =
        CellStatus.hit := by
      rw [hbget]
      exact cellAt_setCell_self hshape hb _
    refine ⟨⟨.hit, by rw [he], Or.inl rfl, hcell⟩, ?_, ?_, ?_⟩
    · intro x' y' h' hne
      rw [hbget]
      exact cellAt_setCell_other hshape hb h' hne _
    · rw [he]
      exact PlayerMap.get_set_other _ _ _ _ (Ne.symm (Player.opponent_ne pid))
    · exact main_attack_already hb' (Or.inl hcell)
  case head =>
    have he : Main.attack g pid x y =
        (some .head_hit,
          { g with
            boards := g.boards.set pid.opponent
              (setCell (g.boards.get pid.opponent) x y .head_hit)
            planes := g.planes.set pid.opponent
              (Main.markHeadHit (g.planes.get pid.opponent) x y) }) := by
      rw [hmain, hcl]
    have hbget : (Main.attack g pid x y).2.boards.get pid.opponent =
        setCell (g.boards.get pid.opponent) x y .head_hit := by
      rw [he]
      exact PlayerMap.get_set_self _ _ _
    have hcell : cellAt ((Main.attack g pid x y).2.boards.get pid.opponent) x y =
        CellStatus.head_hit := by
      rw [hbget]
      exact cellAt_setCell_self hshape hb _
    refine ⟨⟨.head_hit, by rw [he], Or.inr (Or.inl rfl), hcell⟩, ?_, ?_, ?_⟩
    · intro x' y' h' hne
      rw [hbget]
      exact cellAt_setCell_other hshape hb h' hne _
    · rw [he]
      exact PlayerMap.get_set_other _ _ _ _ (Ne.symm (Player.opponent_ne pid))
    · exact main_attack_already hb' (Or.inr (Or.inr hcell))

/-- Claim C3: in both engines, the first attack on an in-bounds cell that
was not attacked before returns `hit`, `head_hit` or `miss`, writes exactly
that outcome at exactly that cell of the defender's board (all other cells
and the attacker's board unchanged), and a second attack on the same cell
returns `already_attacked` and leaves the whole game state (board and
planes' hit tracking included) unchanged. -/
theorem c3_attack_idempotent_after_first (g : Game) (pid : Player) (x y : Int)
    (hshape : boardShape (g.boards.get pid.opponent)) (hb : inBounds (x, y))
    (hfresh : ¬(cellAt (g.boards.get pid.opponent) x y = .hit ∨
                cellAt (g.boards.get pid.opponent) x y = .head_hit ∨
                cellAt (g.boards.get pid.opponent) x y = .miss)) :
    ((∃ r, (Domain.attack g pid x y).1 = some r ∧
      (r = .hit ∨ r = .head_hit ∨ r = .miss) ∧
      cellAt ((Domain.attack g pid x y).2.boards.get pid.opponent) x y =
        cellOfResult r) ∧
    (∀ x' y', inBounds (x', y') → ¬(x' = x ∧ y' = y) →
      cellAt ((Domain.attack g pid x y).2.boards.get pid.opponent) x' y' =
        cellAt (g.boards.get pid.opponent) x' y') ∧
    (Domain.attack g pid x y).2.boards.get pid = g.boards.get pid ∧
    Domain.attack (Domain.attack g pid x y).2 pid x y =
      (some .already_attacked, (Domain.attack g pid x y).2)) ∧
    ((∃ r, (Main.attack g pid x y).1 = some r ∧
      (r = .hit ∨ r = .head_hit ∨ r = .miss) ∧
      cellAt ((Main.attack g pid x y).2.boards.get pid.opponent) x y =
        cellOfResult r) ∧
    (∀ x' y', inBounds (x', y') → ¬(x' = x ∧ y' = y) →
      cellAt ((Main.attack g pid x y).2.boards.get pid.opponent) x' y' =
        cellAt (g.boards.get pid.opponent) x' y') ∧
    (Main.attack g pid x y).2.boards.get pid = g.boards.get pid ∧
    Main.attack (Main.attack g pid x y).2 pid x y =
      (some .already_attacked, (Main.attack g pid x y).2)) :=
  ⟨domain_attack_fresh_spec g pid x y hshape hb hfresh,
   main_attack_fresh_spec g pid x y hshape hb hfresh⟩

theorem c3_witness :
    (boardShape (gPlaced.boards.get Player.p1.opponent) ∧
      inBounds ((2 : Int), (0 : Int)) ∧
      ¬(cellAt (gPlaced.boards.get Player.p1.opponent) 2 0 = .hit ∨
        cellAt (gPlaced.boards.get Player.p1.opponent) 2 0 = .head_hit ∨
        cellAt (gPlaced.boards.get Player.p1.opponent) 2 0 = .miss)) ∧
    Domain.attack (Domain.attack gPlaced .p1 2 0).2 .p1 2 0 =
      (some .already_attacked, (Domain.attack gPlaced .p1 2 0).2) ∧
    Main.attack (Main.attack gPlaced .p1 2 0).2 .p1 2 0 =
      (some .already_attacked, (Main.attack gPlaced .p1 2 0).2) ∧
    cellAt ((Domain.attack gPlaced .p1 2 0).2.boards.get Player.p1.opponent) 3 3 =
      cellAt (gPlaced.boards.get Player.p1.opponent) 3 3 :=
  ⟨⟨by decide, by decide, by decide⟩,
   (c3_attack_idempotent_after_first gPlaced .p1 2 0
     (by decide) (by decide) (by decide)).1.2.2.2,
   (c3_attack_idempotent_after_first gPlaced .p1 2 0
     (by decide) (by decide) (by decide)).2.2.2.2,
   (c3_attack_idempotent_after_first gPlaced .p1 2 0
     (by decide) (by decide) (by decide)).1.2.1 3 3 (by decide) (by decide)⟩

/-! ## Claim C5: at most two planes per side -/

theorem domain_place_full {g : Game} {pid : Player} {hx hy : Int}
    {o : PlaneOrientation} (h : 2 ≤ (g.planes.get pid).length) :
    Domain.place_plane g pid hx hy o = ((false, "Already placed 2 planes"), g) := by
  simp [Domain.place_plane, h]

theorem domain_place_invalid {g : Game} {pid : Player} {hx hy : Int}
    {o : PlaneOrientation} (h : ¬ 2 ≤ (g.planes.get pid).length)
    (hv : (is_valid_placement (get_plane_positions hx hy o).1
      (g.boards.get pid)).1 = false) :
    Domain.place_plane g pid hx hy o =
      ((false, (is_valid_placement (get_plane_positions hx hy o).1
        (g.boards.get pid)).2), g) := by
  simp [Domain.place_plane, h, hv]

theorem domain_place_valid {g : Game} {pid : Player} {hx hy : Int}
    {o : PlaneOrientation} (h : ¬ 2 ≤ (g.planes.get pid).length)
    (hv : (is_valid_placement (get_plane_positions hx hy o).1
      (g.boards.get pid)).1 = true) :
    Domain.place_plane g pid hx hy o =
      ((true, "Plane placed successfully"),
        { g with
          boards := g.boards.set pid
            (placeCells (g.boards.get pid) (get_plane_positions hx hy o).1
              (get_plane_positions hx hy o).2)
          planes := g.planes.set pid ((g.planes.get pid) ++
            [{ positions := (get_plane_positions hx hy o).1
               head_position := (get_plane_positions hx hy o).2
               orientation := o }]) }) := by
  simp [Domain.place_plane, h, hv]

theorem add_player_planes (g : Game) : (g.add_player).2.planes = g.planes := by
  unfold Game.add_player
  split_ifs <;> rfl

theorem add_player_boards (g : Game) : (g.add_player).2.boards = g.boards := by
  unfold Game.add_player
  split_ifs <;> rfl

theorem service_place_planes (g : Game) (pid : Player) (hx hy : Int)
    (o : PlaneOrientation) :
    (Service.handle_plane_placement g pid hx hy o).1.planes =
      (Domain.place_plane g pid hx hy o).2.planes := by
  unfold Service.handle_plane_placement Game.mark_player_ready Game.start_game
  dsimp only
  split_ifs <;> rfl

theorem service_place_boards (g : Game) (pid : Player) (hx hy : Int)
    (o : PlaneOrientation) :
    (Service.handle_plane_placement g pid hx hy o).1.boards =
      (Domain.place_plane g pid hx hy o).2.boards := by
  unfold Service.handle_plane_placement Game.mark_player_ready Game.start_game
  dsimp only
  split_ifs <;> rfl

theorem domain_attack_planes_length (g : Game) (a : Player) (x y : Int)
    (p : Player) :
    ((Domain.attack g a x y).2.planes.get p).length = (g.planes.get p).length := by
  rcases domain_attack_cases g a x y with ⟨-, he⟩ | ⟨-, -, he⟩ |
    ⟨r, ps', -, -, hA, he⟩ | ⟨ps', -, -, he⟩ <;> rw [he]
  · by_cases hp : p = a.opponent
    · subst hp
      show ((g.planes.set a.opponent ps').get a.opponent).length = _
      rw [PlayerMap.get_set_self]
      have hlen := attackPlanes_length (g.planes.get a.opponent) x y
      rw [hA] at hlen
      exact hlen
    · show ((g.planes.set a.opponent ps').get p).length = _
      rw [PlayerMap.get_set_other _ _ _ _ hp]

theorem service_attack_planes_length (g : Game) (pid : Player) (x y : Int)
    (p : Player) :
    ((Service.handle_attack g pid x y).1.planes.get p).length =
      (g.planes.get p).length := by
  by_cases hs : g.state = .playing
  · by_cases ht : g.current_turn = pid
    · rcases hcase : (Domain.attack g pid x y).1 with _ | r
      · rw [service_attack_none hs ht (domain_attack_none_unchanged hcase)]
      · by_cases hra : r = .already_attacked
        · subst hra
          rw [service_attack_already hs ht (domain_attack_already_unchanged hcase)]
        · have hr3 : r = .hit ∨ r = .head_hit ∨ r = .miss := by
            cases r <;> simp_all
          have he' := service_attack_pair_eta hcase
          rcases hw : (Domain.attack g pid x y).2.check_winner with _ | w
          · rw [service_attack_cont hs ht he' hr3 hw]
            exact domain_attack_planes_length g pid x y p
          · rw [service_attack_win hs ht he' hr3 hw]
            exact domain_attack_planes_length g pid x y p
    · rw [service_attack_wrong_turn hs ht]
  · rw [service_attack_not_playing hs]

theorem domain_place_planes_le (g : Game) (pid : Player) (hx hy : Int)
    (o : PlaneOrientation) (p : Player) (h : (g.planes.get p).length ≤ 2) :
    (((Domain.place_plane g pid hx hy o).2).planes.get p).length ≤ 2 := by
  by_cases h2 : 2 ≤ (g.planes.get pid).length
  · rw [domain_place_full h2]
    exact h
  · by_cases hv : (is_valid_placement (get_plane_positions hx hy o).1
        (g.boards.get pid)).1 = false
    · rw [domain_place_invalid h2 hv]
      exact h
    · have hv' : (is_valid_placement (get_plane_positions hx hy o).1
          (g.boards.get pid)).1 = true := by
        simpa using hv
      rw [domain_place_valid h2 hv']
      by_cases hp : p = pid
      · subst hp
        show ((g.planes.set p _).get p).length ≤ 2
        rw [PlayerMap.get_set_self]
        simp only [List.length_append, List.length_cons, List.length_nil]
        omega
      · show ((g.planes.set pid _).get p).length ≤ 2
        rw [PlayerMap.get_set_other _ _ _ _ hp]
        exact h

theorem reachable_planes_le_two {g : Game} (h : Reachable g) (p : Player) :
    (g.planes.get p).length ≤ 2 := by
  induction h with
  | init => cases p <;> decide
  | step g c hg ih =>
    cases c with
    | join =>
      show (((g.add_player).2).planes.get p).length ≤ 2
      rw [add_player_planes]
      exact ih
    | place pid hx hy o =>
      show ((Service.handle_plane_placement g pid hx hy o).1.planes.get p).length ≤ 2
      rw [service_place_planes]
      exact domain_place_planes_le g pid hx hy o p ih
    | attack pid x y =>
      show ((Service.handle_attack g pid x y).1.planes.get p).length ≤ 2
      rw [service_attack_planes_length]
      exact ih

theorem main_checkPositions_some_false (ps : List (Int × Int)) (b : Board)
    (e : Bool × String) (h : Main.checkPositions ps b = some e) : e.1 = false := by
  induction ps with
  | nil => exact Option.noConfusion h
  | cons q rest ih =>
    unfold Main.checkPositions at h
    split_ifs at h
    · cases Option.some.inj h
      rfl
    · cases Option.some.inj h
      rfl
    · exact ih h

theorem main_place_full {g : Game} {pid : Player} {hx hy : Int}
    {o : PlaneOrientation}
    (hc : Main.checkPositions (get_plane_positions hx hy o).1
      (g.boards.get pid) = none)
    (h2 : 2 ≤ (g.planes.get pid).length) :
    Main.place_plane g pid hx hy o = ((false, "Already placed 2 planes"), g) := by
  simp [Main.place_plane, hc, h2]

theorem main_place_check_some {g : Game} {pid : Player} {hx hy : Int}
    {o : PlaneOrientation} {e : Bool × String}
    (hc : Main.checkPositions (get_plane_positions hx hy o).1
      (g.boards.get pid) = some e) :
    Main.place_plane g pid hx hy o = (e, g) := by
  simp [Main.place_plane, hc]

theorem main_place_two_nomutate (g : Game) (pid : Player) (hx hy : Int)
    (o : PlaneOrientation) (h2 : 2 ≤ (g.planes.get pid).length) :
    (Main.place_plane g pid hx hy o).1.1 = false ∧
    (Main.place_plane g pid hx hy o).2 = g := by
  rcases hc : Main.checkPositions (get_plane_positions hx hy o).1
      (g.boards.get pid) with _ | e
  · rw [main_place_full hc h2]
    exact ⟨rfl, rfl⟩
  · rw [main_place_check_some hc]
    exact ⟨main_checkPositions_some_false _ _ e hc, rfl⟩

/-- Claim C5 (amended): in every reachable state each side holds at most 2
planes, and a `place_plane` call for a side that already has 2 planes always
fails and mutates nothing; in the layered engine the error is always
`"Already placed 2 planes"`, while in the standalone `main.py` engine a
third placement whose geometry is rejected reports the geometry error
instead (see the counterexample). -/
theorem c5_amended_at_most_two_planes (g : Game) (hr : Reachable g)
    (pid : Player) (hx hy : Int) (o : PlaneOrientation) :
    (∀ p, (g.planes.get p).length ≤ 2) ∧
    (2 ≤ (g.planes.get pid).length →
      Domain.place_plane g pid hx hy o = ((false, "Already placed 2 planes"), g)) ∧
    (2 ≤ (g.planes.get pid).length →
      (Main.place_plane g pid hx hy o).1.1 = false ∧
      (Main.place_plane g pid hx hy o).2 = g) :=
  ⟨fun p => reachable_planes_le_two hr p,
   fun h2 => domain_place_full h2,
   fun h2 => main_place_two_nomutate g pid hx hy o h2⟩

theorem c5_witness :
    2 ≤ (gPlaced.planes.get .p1).length ∧
    Domain.place_plane gPlaced .p1 20 0 .up =
      ((false, "Already placed 2 planes"), gPlaced) :=
  ⟨by decide,
   (c5_amended_at_most_two_planes gPlaced
     (Reachable.of_run Reachable.init csPlaced) .p1 20 0 .up).2.1 (by decide)⟩

/-- The same placements replayed through the standalone `main.py` engine. -/
def gWsPlaced : Game := (Ws.run initGame csPlaced).1

/-- Claim C5 counterexample: in the `main.py` engine, a side that already
has 2 planes placing a third plane with an out-of-bounds anchor gets the
out-of-bounds error, not `"Already placed 2 planes"` — the geometry check
runs before the plane-count check there. -/
theorem c5_counterexample :
    2 ≤ (gWsPlaced.planes.get .p1).length ∧
    Main.place_plane gWsPlaced .p1 20 0 .up =
      ((false, "Plane out of bounds"), gWsPlaced) := by
  constructor
  · decide
  · decide

/-! ## The board/piece consistency invariant -/

/-- Shape facts about a stored plane that hold from construction on. -/
def WFPlane (pl : Plane) : Prop :=
  pl.positions.Nodup ∧ pl.positions.length = 10 ∧
  pl.positions.head? = some pl.head_position ∧
  ∀ q ∈ pl.positions, inBounds q

/-- What the status of a board cell says about the planes of that side. -/
def cellOK (ps : List Plane) (c : CellStatus) (q : Int × Int) : Prop :=
  match c with
  | .empty => ∀ pl ∈ ps, q ∉ pl.positions
  | .miss => ∀ pl ∈ ps, q ∉ pl.positions
  | .plane => ∃ pl ∈ ps, q ∈ pl.positions ∧ q ≠ pl.head_position ∧ q ∉ pl.hit_positions
  | .head => ∃ pl ∈ ps, q = pl.head_position ∧ q ∈ pl.positions ∧ q ∉ pl.hit_positions
  | .hit => ∃ pl ∈ ps, q ∈ pl.positions ∧ q ≠ pl.head_position ∧ q ∈ pl.hit_positions
  | .head_hit => ∃ pl ∈ ps, q = pl.head_position ∧ q ∈ pl.positions ∧ q ∈ pl.hit_positions

/-- Distinct planes of one side never share a cell (guaranteed by the
overlap check at placement time). -/
def planesDisjoint (ps : List Plane) : Prop :=
  ps.Pairwise (fun a b => ∀ q, q ∈ a.positions → q ∉ b.positions)

def sideInv (b : Board) (ps : List Plane) : Prop :=
  boardShape b ∧ (∀ pl ∈ ps, WFPlane pl) ∧ planesDisjoint ps ∧
  ∀ q : Int × Int, inBounds q → cellOK ps (cellAt b q.1 q.2) q

def GameInv (g : Game) : Prop :=
  ∀ p : Player, sideInv (g.boards.get p) (g.planes.get p)

theorem getD_replicate {α : Type} (n i : Nat) (v d : α) :
    (List.replicate n v).getD i d = if i < n then v else d := by
  induction n generalizing i with
  | zero => simp [List.getD]
  | succ m ih =>
    cases i with
    | zero => simp [List.replicate]
    | succ j =>
      show (v :: List.replicate m v).getD (j + 1) d = _
      rw [List.getD_cons_succ, ih]
      simp only [Nat.succ_lt_succ_iff]

theorem cellAt_initBoard (x y : Int) : cellAt initBoard x y = .empty := by
  unfold cellAt initBoard
  rw [getD_replicate]
  by_cases hy : y.toNat < 10
  · rw [if_pos hy, getD_replicate]
    by_cases hx : x.toNat < 10
    · rw [if_pos hx]
    · rw [if_neg hx]
  · rw [if_neg hy]
    rfl

theorem boardShape_initBoard : boardShape initBoard := by decide

theorem gameInv_init : GameInv initGame := by
  intro p
  refine ⟨?_, ?_, ?_, ?_⟩
  · cases p <;> exact boardShape_initBoard
  · intro pl hpl
    cases p <;> exact absurd hpl (List.not_mem_nil pl)
  · cases p <;> exact List.Pairwise.nil
  · intro q hq
    have hcell : cellAt (initGame.boards.get p) q.1 q.2 = .empty := by
      cases p <;> exact cellAt_initBoard q.1 q.2
    rw [hcell]
    intro pl hpl
    cases p <;> exact absurd hpl (List.not_mem_nil pl)

/-! ## Shared geometry facts (also used by the invariant proofs) -/

theorem gpp_nodup (hx hy : Int) (o : PlaneOrientation) :
    (get_plane_positions hx hy o).1.Nodup := by
  rw [get_plane_positions_eq_translate]
  exact (planeOffsets_nodup o).map (translate_injective hx hy)

theorem gpp_length (hx hy : Int) (o : PlaneOrientation) :
    (get_plane_positions hx hy o).1.length = 10 := by
  rw [get_plane_positions_eq_translate]
  simp [List.length_map, planeOffsets_length]

theorem gpp_head (hx hy : Int) (o : PlaneOrientation) :
    (get_plane_positions hx hy o).1.head? =
      some (get_plane_positions hx hy o).2 := by
  rw [get_plane_positions_eq_translate]
  rw [List.head?_map, planeOffsets_head]
  simp

theorem gpp_head_mem (hx hy : Int) (o : PlaneOrientation) :
    (get_plane_positions hx hy o).2 ∈ (get_plane_positions hx hy o).1 := by
  have h := gpp_head hx hy o
  rcases hl : (get_plane_positions hx hy o).1 with _ | ⟨a, t⟩
  · rw [hl] at h
    exact Option.noConfusion h
  · rw [hl] at h
    have : a = (get_plane_positions hx hy o).2 := Option.some.inj h
    rw [← this]
    exact List.mem_cons_self a t

/-- The loop in `is_valid_placement` succeeds iff every scanned cell is in
bounds and currently empty. -/
theorem is_valid_placement_true_iff (positions : List (Int × Int)) (b : Board) :
    (is_valid_placement positions b).1 = true ↔
      ∀ q ∈ positions, inBounds q ∧ cellAt b q.1 q.2 = .empty := by
  induction positions with
  | nil => simp [is_valid_placement]
  | cons q rest ih =>
    by_cases hoob : q.1 < 0 ∨ 10 ≤ q.1 ∨ q.2 < 0 ∨ 10 ≤ q.2
    · have hnb : ¬ inBounds q := by
        unfold inBounds
        omega
      simp only [is_valid_placement, if_pos hoob]
      constructor
      · intro hc
        exact absurd hc (by decide)
      · intro hall
        exact absurd (hall q (List.mem_cons_self q rest)).1 hnb
    · have hb : inBounds q := (not_oob_iff q).mp hoob
      by_cases hcell : cellAt b q.1 q.2 ≠ .empty
      · simp only [is_valid_placement, if_neg hoob, if_pos hcell]
        constructor
        · intro hc
          exact absurd hc (by decide)
        · intro hall
          exact absurd (hall q (List.mem_cons_self q rest)).2 hcell
      · have hcl : cellAt b q.1 q.2 = .empty := by
          by_contra hc
          exact hcell hc
        simp only [is_valid_placement, if_neg hoob, if_neg hcell]
        rw [ih]
        constructor
        · intro hall r hr
          rcases List.mem_cons.mp hr with heq | hmem
          · subst heq
            exact ⟨hb, hcl⟩
          · exact hall r hmem
        · intro hall r hr
          exact hall r (List.mem_cons_of_mem q hr)

/-! ## Placement preserves the invariant -/

theorem placeCells_nil (b : Board) (hd : Int × Int) : placeCells b [] hd = b := rfl

theorem placeCells_cons (b : Board) (q : Int × Int) (rest : List (Int × Int))
    (hd : Int × Int) :
    placeCells b (q :: rest) hd =
      placeCells (setCell b q.1 q.2 (if q = hd then .head else .plane)) rest hd := rfl

theorem placeCells_shape {b : Board} (hb : boardShape b)
    (cells : List (Int × Int)) (hd : Int × Int)
    (hin : ∀ q ∈ cells, inBounds q) : boardShape (placeCells b cells hd) := by
  induction cells generalizing b with
  | nil => exact hb
  | cons q rest ih =>
    rw [placeCells_cons]
    exact ih (boardShape_setCell hb (hin q (List.mem_cons_self q rest)) _)
      (fun r hr => hin r (List.mem_cons_of_mem q hr))

theorem placeCells_cellAt_notMem {b : Board} (hb : boardShape b)
    {cells : List (Int × Int)} {hd q : Int × Int}
    (hin : ∀ r ∈ cells, inBounds r) (hq : inBounds q) (hmem : q ∉ cells) :
    cellAt (placeCells b cells hd) q.1 q.2 = cellAt b q.1 q.2 := by
  induction cells generalizing b with
  | nil => rfl
  | cons r rest ih =>
    rw [placeCells_cons]
    have hrb : inBounds r := hin r (List.mem_cons_self r rest)
    have hne : q ≠ r := fun h => hmem (h ▸ List.mem_cons_self r rest)
    have hnr : q ∉ rest := fun h => hmem (List.mem_cons_of_mem r h)
    have hqr : ¬(q.1 = r.1 ∧ q.2 = r.2) := by
      intro hc
      exact hne (Prod.ext hc.1 hc.2)
    rw [ih (boardShape_setCell hb hrb _)
      (fun s hs => hin s (List.mem_cons_of_mem r hs)) hnr]
    exact cellAt_setCell_other hb hrb hq hqr _

theorem placeCells_cellAt_mem {b : Board} (hb : boardShape b)
    {cells : List (Int × Int)} {hd q : Int × Int}
    (hin : ∀ r ∈ cells, inBounds r) (hnd : cells.Nodup) (hmem : q ∈ cells) :
    cellAt (placeCells b cells hd) q.1 q.2 =
      (if q = hd then CellStatus.head else CellStatus.plane) := by
  induction cells generalizing b with
  | nil => exact absurd hmem (List.not_mem_nil q)
  | cons r rest ih =>
    rw [placeCells_cons]
    have hrb : inBounds r := hin r (List.mem_cons_self r rest)
    rcases List.mem_cons.mp hmem with heq | hmem'
    · have hnr : q ∉ rest := by
        rw [heq]
        exact (List.nodup_cons.mp hnd).1
      rw [placeCells_cellAt_notMem (boardShape_setCell hb hrb _)
        (fun s hs => hin s (List.mem_cons_of_mem r hs)) (heq ▸ hrb) hnr]
      rw [heq]
      exact cellAt_setCell_self hb hrb _
    · exact ih (boardShape_setCell hb hrb _)
        (fun s hs => hin s (List.mem_cons_of_mem r hs))
        (List.nodup_cons.mp hnd).2 hmem'

theorem cellOK_append_new {ps : List Plane} {c : CellStatus} {q : Int × Int}
    (np : Plane) (hnp : q ∉ np.positions) (h : cellOK ps c q) :
    cellOK (ps ++ [np]) c q := by
  cases c with
  | empty =>
    intro pl hpl
    rcases List.mem_append.mp hpl with h1 | h2
    · exact h pl h1
    · rw [List.mem_singleton.mp h2]
      exact hnp
  | miss =>
    intro pl hpl
    rcases List.mem_append.mp hpl with h1 | h2
    · exact h pl h1
    · rw [List.mem_singleton.mp h2]
      exact hnp
  | plane =>
    obtain ⟨pl, hpl, hr⟩ := h
    exact ⟨pl, List.mem_append_left _ hpl, hr⟩
  | head =>
    obtain ⟨pl, hpl, hr⟩ := h
    exact ⟨pl, List.mem_append_left _ hpl, hr⟩
  | hit =>
    obtain ⟨pl, hpl, hr⟩ := h
    exact ⟨pl, List.mem_append_left _ hpl, hr⟩
  | head_hit =>
    obtain ⟨pl, hpl, hr⟩ := h
    exact ⟨pl, List.mem_append_left _ hpl, hr⟩

theorem sideInv_place (b : Board) (ps : List Plane) (hx hy : Int)
    (o : PlaneOrientation) (hInv : sideInv b ps)
    (hval : (is_valid_placement (get_plane_positions hx hy o).1 b).1 = true) :
    sideInv
      (placeCells b (get_plane_positions hx hy o).1 (get_plane_positions hx hy o).2)
      (ps ++ [{ positions := (get_plane_positions hx hy o).1
                head_position := (get_plane_positions hx hy o).2
                orientation := o }]) := by
  obtain ⟨hshape, hwf, hdisj, hcells⟩ := hInv
  have hvall := (is_valid_placement_true_iff _ b).mp hval
  have hin : ∀ q ∈ (get_plane_positions hx hy o).1, inBounds q :=
    fun q hq => (hvall q hq).1
  have hempty : ∀ q ∈ (get_plane_positions hx hy o).1, cellAt b q.1 q.2 = .empty :=
    fun q hq => (hvall q hq).2
  have hnocover : ∀ q ∈ (get_plane_positions hx hy o).1, ∀ pl ∈ ps,
      q ∉ pl.positions := by
    intro q hq pl hpl
    have hok := hcells q (hin q hq)
    rw [hempty q hq] at hok
    exact hok pl hpl
  refine ⟨placeCells_shape hshape _ _ hin, ?_, ?_, ?_⟩
  · intro pl hpl
    rcases List.mem_append.mp hpl with h1 | h2
    · exact hwf pl h1
    · rw [List.mem_singleton.mp h2]
      exact ⟨gpp_nodup hx hy o, gpp_length hx hy o, gpp_head hx hy o, hin⟩
  · rw [planesDisjoint, List.pairwise_append]
    refine ⟨hdisj, List.pairwise_singleton _ _, ?_⟩
    intro a ha np' hnp' q hqa hqnp
    rw [List.mem_singleton.mp hnp'] at hqnp
    exact hnocover q hqnp a ha hqa
  · intro q hq
    by_cases hmem : q ∈ (get_plane_positions hx hy o).1
    · rw [placeCells_cellAt_mem hshape hin (gpp_nodup hx hy o) hmem]
      by_cases hqhd : q = (get_plane_positions hx hy o).2
      · rw [if_pos hqhd]
        exact ⟨_, List.mem_append_right _ (List.mem_singleton_self _),
          hqhd, hmem, List.not_mem_nil q⟩
      · rw [if_neg hqhd]
        exact ⟨_, List.mem_append_right _ (List.mem_singleton_self _),
          hmem, hqhd, List.not_mem_nil q⟩
    · rw [placeCells_cellAt_notMem hshape hin hq hmem]
      exact cellOK_append_new _ hmem (hcells q hq)

theorem gameInv_place (g : Game) (pid : Player) (hx hy : Int)
    (o : PlaneOrientation) (hInv : GameInv g) :
    GameInv (Service.handle_plane_placement g pid hx hy o).1 := by
  intro p
  rw [service_place_boards g pid hx hy o, service_place_planes g pid hx hy o]
  by_cases h2 : 2 ≤ (g.planes.get pid).length
  · rw [domain_place_full h2]
    exact hInv p
  · by_cases hv : (is_valid_placement (get_plane_positions hx hy o).1
        (g.boards.get pid)).1 = false
    · rw [domain_place_invalid h2 hv]
      exact hInv p
    · have hv' : (is_valid_placement (get_plane_positions hx hy o).1
          (g.boards.get pid)).1 = true := by
        simpa using hv
      rw [domain_place_valid h2 hv']
      by_cases hppid : p = pid
      · subst hppid
        show sideInv ((g.boards.set p _).get p) ((g.planes.set p _).get p)
        rw [PlayerMap.get_set_self, PlayerMap.get_set_self]
        exact sideInv_place _ _ hx hy o (hInv p) hv'
      · show sideInv ((g.boards.set pid _).get p) ((g.planes.set pid _).get p)
        rw [PlayerMap.get_set_other _ _ _ _ hppid,
          PlayerMap.get_set_other _ _ _ _ hppid]
        exact hInv p

/-! ## Attack preserves the invariant -/

theorem wfplane_head_mem {pl : Plane} (h : WFPlane pl) :
    pl.head_position ∈ pl.positions := by
  obtain ⟨-, -, hh, -⟩ := h
  rcases hp : pl.positions with _ | ⟨a, t⟩
  · rw [hp] at hh
    exact Option.noConfusion hh
  · rw [hp] at hh
    rw [show pl.head_position = a from (Option.some.inj hh).symm]
    exact List.mem_cons_self a t

theorem attackPlanes_no_match (ps : List Plane) (x y : Int)
    (h : ∀ pl ∈ ps, (x, y) ≠ pl.head_position ∧ (x, y) ∉ pl.positions) :
    Domain.attackPlanes ps x y = (none, ps) := by
  induction ps with
  | nil => rfl
  | cons p t ih =>
    have hp := h p (List.mem_cons_self p t)
    rw [attackPlanes_cons_none (receive_attack_none hp.1 hp.2),
      ih (fun pl hpl => h pl (List.mem_cons_of_mem p hpl))]

theorem attackPlanes_isSome_of_cover (ps : List Plane) (x y : Int) (pl : Plane)
    (hpl : pl ∈ ps) (hcov : (x, y) = pl.head_position ∨ (x, y) ∈ pl.positions) :
    (Domain.attackPlanes ps x y).1 ≠ none := by
  induction ps with
  | nil => exact absurd hpl (List.not_mem_nil pl)
  | cons p t ih =>
    by_cases hh : (x, y) = p.head_position
    · rw [attackPlanes_cons_some (receive_attack_head hh)]
      simp
    · by_cases hm : (x, y) ∈ p.positions
      · rw [attackPlanes_cons_some (receive_attack_body hh hm)]
        simp
      · rw [attackPlanes_cons_none (receive_attack_none hh hm)]
        rcases List.mem_cons.mp hpl with heq | hmem
        · rw [heq] at hcov
          rcases hcov with hc | hc
          · exact absurd hc hh
          · exact absurd hc hm
        · exact ih hmem

theorem attackPlanes_split_head (l₁ : List Plane) (pl : Plane) (l₂ : List Plane)
    (x y : Int)
    (h₁ : ∀ a ∈ l₁, (x, y) ≠ a.head_position ∧ (x, y) ∉ a.positions)
    (hh : (x, y) = pl.head_position) :
    Domain.attackPlanes (l₁ ++ pl :: l₂) x y =
      (some .head_hit,
        l₁ ++ { pl with is_destroyed := true,
                        hit_positions := pl.hit_positions ++ [(x, y)] } :: l₂) := by
  induction l₁ with
  | nil => exact attackPlanes_cons_some (receive_attack_head hh)
  | cons a t ih =>
    have ha := h₁ a (List.mem_cons_self a t)
    show Domain.attackPlanes (a :: (t ++ pl :: l₂)) x y = _
    rw [attackPlanes_cons_none (receive_attack_none ha.1 ha.2),
      ih (fun b hb => h₁ b (List.mem_cons_of_mem a hb))]
    rfl

theorem attackPlanes_split_body (l₁ : List Plane) (pl : Plane) (l₂ : List Plane)
    (x y : Int)
    (h₁ : ∀ a ∈ l₁, (x, y) ≠ a.head_position ∧ (x, y) ∉ a.positions)
    (hh : (x, y) ≠ pl.head_position) (hm : (x, y) ∈ pl.positions) :
    Domain.attackPlanes (l₁ ++ pl :: l₂) x y =
      (some .hit,
        l₁ ++ { pl with hit_positions := pl.hit_positions ++ [(x, y)] } :: l₂) := by
  induction l₁ with
  | nil => exact attackPlanes_cons_some (receive_attack_body hh hm)
  | cons a t ih =>
    have ha := h₁ a (List.mem_cons_self a t)
    show Domain.attackPlanes (a :: (t ++ pl :: l₂)) x y = _
    rw [attackPlanes_cons_none (receive_attack_none ha.1 ha.2),
      ih (fun b hb => h₁ b (List.mem_cons_of_mem a hb))]
    rfl

theorem no_match_before {ps l₁ l₂ : List Plane} {pl : Plane} {xy : Int × Int}
    (hps : ps = l₁ ++ pl :: l₂)
    (hwf : ∀ a ∈ ps, WFPlane a) (hdisj : planesDisjoint ps)
    (hcov : xy ∈ pl.positions) :
    ∀ a ∈ l₁, (xy.1, xy.2) ≠ a.head_position ∧ (xy.1, xy.2) ∉ a.positions := by
  intro a ha
  have hR : ∀ q, q ∈ a.positions → q ∉ pl.positions := by
    have hd := hdisj
    rw [hps] at hd
    exact (List.pairwise_append.mp hd).2.2 a ha pl (List.mem_cons_self pl l₂)
  have hxy : (xy.1, xy.2) = xy := rfl
  constructor
  · intro hh
    have hwfa : WFPlane a := hwf a (by rw [hps]; exact List.mem_append_left _ ha)
    have hmem : xy ∈ a.positions := by
      rw [show xy = a.head_position from hxy ▸ hh]
      exact wfplane_head_mem hwfa
    exact hR xy hmem hcov
  · intro hmem
    exact hR xy (hxy ▸ hmem) hcov

theorem pairwise_disj_replace {l₁ l₂ : List Plane} {pl pl' : Plane}
    (hpos : pl'.positions = pl.positions)
    (h : planesDisjoint (l₁ ++ pl :: l₂)) :
    planesDisjoint (l₁ ++ pl' :: l₂) := by
  unfold planesDisjoint at h ⊢
  rw [List.pairwise_append] at h ⊢
  obtain ⟨ha, hb, hc⟩ := h
  rw [List.pairwise_cons] at hb ⊢
  refine ⟨ha, ⟨?_, hb.2⟩, ?_⟩
  · intro b hbmem q hq
    exact hb.1 b hbmem q (hpos ▸ hq)
  · intro a hal b hbl
    rcases List.mem_cons.mp hbl with heq | hmem
    · intro q hqa
      rw [heq, hpos]
      exact hc a hal pl (List.mem_cons_self pl l₂) q hqa
    · exact hc a hal b (List.mem_cons_of_mem pl hmem)

theorem mem_replace {l₁ l₂ : List Plane} {pl pl' a : Plane}
    (h : a ∈ l₁ ++ pl' :: l₂) : a ∈ l₁ ++ pl :: l₂ ∨ a = pl' := by
  rcases List.mem_append.mp h with h1 | h2
  · exact Or.inl (List.mem_append_left _ h1)
  · rcases List.mem_cons.mp h2 with heq | hmem
    · exact Or.inr heq
    · exact Or.inl (List.mem_append_right _ (List.mem_cons_of_mem pl hmem))

theorem cellOK_replace {l₁ l₂ : List Plane} {pl pl' : Plane} {c : CellStatus}
    {q xy : Int × Int}
    (hpos : pl'.positions = pl.positions)
    (hhead : pl'.head_position = pl.head_position)
    (hhit : ∀ q', q' ≠ xy → (q' ∈ pl'.hit_positions ↔ q' ∈ pl.hit_positions))
    (hq : q ≠ xy)
    (h : cellOK (l₁ ++ pl :: l₂) c q) : cellOK (l₁ ++ pl' :: l₂) c q := by
  have hall : ∀ (P : Plane → Prop), (∀ a ∈ l₁ ++ pl :: l₂, P a) →
      (P pl → P pl') → ∀ a ∈ l₁ ++ pl' :: l₂, P a := by
    intro P hP htr a ha
    rcases mem_replace ha with h1 | h2
    · exact hP a h1
    · rw [h2]
      exact htr (hP pl (List.mem_append_right _ (List.mem_cons_self pl l₂)))
  have hex : ∀ (P : Plane → Prop), (∃ a ∈ l₁ ++ pl :: l₂, P a) →
      (P pl → P pl') → ∃ a ∈ l₁ ++ pl' :: l₂, P a := by
    intro P hP htr
    obtain ⟨a, ha, hPa⟩ := hP
    rcases List.mem_append.mp ha with h1 | h2
    · exact ⟨a, List.mem_append_left _ h1, hPa⟩
    · rcases List.mem_cons.mp h2 with heq | hmem
      · exact ⟨pl', List.mem_append_right _ (List.mem_cons_self pl' l₂),
          htr (heq ▸ hPa)⟩
      · exact ⟨a, List.mem_append_right _ (List.mem_cons_of_mem pl' hmem), hPa⟩
  cases c with
  | empty =>
    refine hall (fun a => q ∉ a.positions) h ?_
    intro hp
    show q ∉ pl'.positions
    rw [hpos]
    exact hp
  | miss =>
    refine hall (fun a => q ∉ a.positions) h ?_
    intro hp
    show q ∉ pl'.positions
    rw [hpos]
    exact hp
  | plane =>
    refine hex (fun a => q ∈ a.positions ∧ q ≠ a.head_position ∧
      q ∉ a.hit_positions) h ?_
    intro ⟨h1, h2, h3⟩
    exact ⟨hpos ▸ h1, hhead ▸ h2, fun hc => h3 ((hhit q hq).mp hc)⟩
  | head =>
    refine hex (fun a => q = a.head_position ∧ q ∈ a.positions ∧
      q ∉ a.hit_positions) h ?_
    intro ⟨h1, h2, h3⟩
    exact ⟨hhead ▸ h1, hpos ▸ h2, fun hc => h3 ((hhit q hq).mp hc)⟩
  | hit =>
    refine hex (fun a => q ∈ a.positions ∧ q ≠ a.head_position ∧
      q ∈ a.hit_positions) h ?_
    intro ⟨h1, h2, h3⟩
    exact ⟨hpos ▸ h1, hhead ▸ h2, (hhit q hq).mpr h3⟩
  | head_hit =>
    refine hex (fun a => q = a.head_position ∧ q ∈ a.positions ∧
      q ∈ a.hit_positions) h ?_
    intro ⟨h1, h2, h3⟩
    exact ⟨hhead ▸ h1, hpos ▸ h2, (hhit q hq).mpr h3⟩

theorem sideInv_attack_some {b : Board} {ps : List Plane} {x y : Int}
    {r : AttackResult} {ps' : List Plane}
    (hInv : sideInv b ps) (hb : inBounds (x, y))
    (hfresh : ¬(cellAt b x y = .hit ∨ cellAt b x y = .head_hit ∨
      cellAt b x y = .miss))
    (hA : Domain.attackPlanes ps x y = (some r, ps')) :
    sideInv (setCell b x y (cellOfResult r)) ps' := by
  obtain ⟨hshape, hwf, hdisj, hcells⟩ := hInv
  have hok := hcells (x, y) hb
  rcases hcl : cellAt b x y
  case hit => exact absurd (Or.inl hcl) hfresh
  case head_hit => exact absurd (Or.inr (Or.inl hcl)) hfresh
  case miss => exact absurd (Or.inr (Or.inr hcl)) hfresh
  case empty =>
    rw [hcl] at hok
    have hnone : Domain.attackPlanes ps x y = (none, ps) := by
      refine attackPlanes_no_match ps x y ?_
      intro pl hpl
      constructor
      · intro hh
        exact hok pl hpl (hh ▸ wfplane_head_mem (hwf pl hpl))
      · exact hok pl hpl
    rw [hnone] at hA
    exact absurd (congrArg Prod.fst hA) (by simp)
  case plane =>
    rw [hcl] at hok
    obtain ⟨pl, hpl, hqpos, hqhead, hqhit⟩ := hok
    obtain ⟨l₁, l₂, hps⟩ := List.append_of_mem hpl
    have h₁ := no_match_before hps hwf hdisj hqpos
    have hsplit := attackPlanes_split_body l₁ pl l₂ x y h₁ hqhead hqpos
    rw [hps, hsplit] at hA
    injection hA with hA1 hA2
    injection hA1 with hA1
    subst hA2
    subst hA1
    refine ⟨boardShape_setCell hshape hb _, ?_, ?_, ?_⟩
    · intro a ha
      rcases mem_replace ha with h1 | h2
      · exact hwf a (hps ▸ h1)
      · rw [h2]
        exact hwf pl (hps ▸ List.mem_append_right _ (List.mem_cons_self pl l₂))
    · exact @pairwise_disj_replace l₁ l₂ pl
        { pl with hit_positions := pl.hit_positions ++ [(x, y)] } rfl (hps ▸ hdisj)
    · intro q hq
      by_cases hqxy : q = (x, y)
      · subst hqxy
        rw [cellAt_setCell_self hshape hb]
        exact ⟨_, List.mem_append_right _ (List.mem_cons_self _ l₂),
          hqpos, hqhead, List.mem_append_right _ (List.mem_singleton_self _)⟩
      · rw [cellAt_setCell_other hshape hb hq
          (fun hc => hqxy (Prod.ext hc.1 hc.2)) _]
        have hold := hcells q hq
        rw [hps] at hold
        refine @cellOK_replace l₁ l₂ pl
          { pl with hit_positions := pl.hit_positions ++ [(x, y)] }
          (cellAt b q.1 q.2) q (x, y) rfl rfl ?_ hqxy hold
        intro q' hq'
        show q' ∈ pl.hit_positions ++ [(x, y)] ↔ q' ∈ pl.hit_positions
        rw [List.mem_append, List.mem_singleton]
        exact or_iff_left hq'
  case head =>
    rw [hcl] at hok
    obtain ⟨pl, hpl, hqhead, hqpos, hqhit⟩ := hok
    obtain ⟨l₁, l₂, hps⟩ := List.append_of_mem hpl
    have h₁ := no_match_before hps hwf hdisj hqpos
    have hsplit := attackPlanes_split_head l₁ pl l₂ x y h₁ hqhead
    rw [hps, hsplit] at hA
    injection hA with hA1 hA2
    injection hA1 with hA1
    subst hA2
    subst hA1
    refine ⟨boardShape_setCell hshape hb _, ?_, ?_, ?_⟩
    · intro a ha
      rcases mem_replace ha with h1 | h2
      · exact hwf a (hps ▸ h1)
      · rw [h2]
        exact hwf pl (hps ▸ List.mem_append_right _ (List.mem_cons_self pl l₂))
    · exact @pairwise_disj_replace l₁ l₂ pl
        { pl with is_destroyed := true,
                  hit_positions := pl.hit_positions ++ [(x, y)] } rfl (hps ▸ hdisj)
    · intro q hq
      by_cases hqxy : q = (x, y)
      · subst hqxy
        rw [cellAt_setCell_self hshape hb]
        exact ⟨_, List.mem_append_right _ (List.mem_cons_self _ l₂),
          hqhead, hqpos, List.mem_append_right _ (List.mem_singleton_self _)⟩
      · rw [cellAt_setCell_other hshape hb hq
          (fun hc => hqxy (Prod.ext hc.1 hc.2)) _]
        have hold := hcells q hq
        rw [hps] at hold
        refine @cellOK_replace l₁ l₂ pl
          { pl with is_destroyed := true,
                    hit_positions := pl.hit_positions ++ [(x, y)] }
          (cellAt b q.1 q.2) q (x, y) rfl rfl ?_ hqxy hold
        intro q' hq'
        show q' ∈ pl.hit_positions ++ [(x, y)] ↔ q' ∈ pl.hit_positions
        rw [List.mem_append, List.mem_singleton]
        exact or_iff_left hq'

theorem sideInv_attack_none {b : Board} {ps ps' : List Plane} {x y : Int}
    (hInv : sideInv b ps) (hb : inBounds (x, y))
    (hfresh : ¬(cellAt b x y = .hit ∨ cellAt b x y = .head_hit ∨
      cellAt b x y = .miss))
    (hA : Domain.attackPlanes ps x y = (none, ps')) :
    sideInv (setCell b x y .miss) ps := by
  obtain ⟨hshape, hwf, hdisj, hcells⟩ := hInv
  have hok := hcells (x, y) hb
  rcases hcl : cellAt b x y
  case hit => exact absurd (Or.inl hcl) hfresh
  case head_hit => exact absurd (Or.inr (Or.inl hcl)) hfresh
  case miss => exact absurd (Or.inr (Or.inr hcl)) hfresh
  case plane =>
    rw [hcl] at hok
    obtain ⟨pl, hpl, hqpos, -, -⟩ := hok
    have hsome := attackPlanes_isSome_of_cover ps x y pl hpl (Or.inr hqpos)
    rw [hA] at hsome
    exact absurd rfl hsome
  case head =>
    rw [hcl] at hok
    obtain ⟨pl, hpl, hqhead, -, -⟩ := hok
    have hsome := attackPlanes_isSome_of_cover ps x y pl hpl (Or.inl hqhead)
    rw [hA] at hsome
    exact absurd rfl hsome
  case empty =>
    rw [hcl] at hok
    refine ⟨boardShape_setCell hshape hb _, hwf, hdisj, ?_⟩
    intro q hq
    by_cases hqxy : q = (x, y)
    · subst hqxy
      rw [cellAt_setCell_self hshape hb]
      exact hok
    · rw [cellAt_setCell_other hshape hb hq
        (fun hc => hqxy (Prod.ext hc.1 hc.2)) _]
      exact hcells q hq

theorem gameInv_domain_attack (g : Game) (a : Player) (x y : Int)
    (hInv : GameInv g) : GameInv (Domain.attack g a x y).2 := by
  rcases domain_attack_cases g a x y with ⟨-, he⟩ | ⟨-, -, he⟩ |
    ⟨r, ps', hf, -, hA, he⟩ | ⟨ps', hf, hA, he⟩ <;> rw [he]
  · exact hInv
  · exact hInv
  · intro p
    by_cases hp : p = a.opponent
    · subst hp
      show sideInv ((g.boards.set a.opponent _).get a.opponent)
        ((g.planes.set a.opponent _).get a.opponent)
      rw [PlayerMap.get_set_self, PlayerMap.get_set_self]
      have hbnd : inBounds (x, y) := (not_oob_iff (x, y)).mp hf.1
      exact sideInv_attack_some (hInv a.opponent) hbnd hf.2 hA
    · show sideInv ((g.boards.set a.opponent _).get p)
        ((g.planes.set a.opponent _).get p)
      rw [PlayerMap.get_set_other _ _ _ _ hp, PlayerMap.get_set_other _ _ _ _ hp]
      exact hInv p
  · intro p
    by_cases hp : p = a.opponent
    · subst hp
      show sideInv ((g.boards.set a.opponent _).get a.opponent)
        (g.planes.get a.opponent)
      rw [PlayerMap.get_set_self]
      have hbnd : inBounds (x, y) := (not_oob_iff (x, y)).mp hf.1
      exact sideInv_attack_none (hInv a.opponent) hbnd hf.2 hA
    · show sideInv ((g.boards.set a.opponent _).get p) (g.planes.get p)
      rw [PlayerMap.get_set_other _ _ _ _ hp]
      exact hInv p

theorem service_attack_result_cases (g : Game) (pid : Player) (x y : Int) :
    (Service.handle_attack g pid x y).1 = g ∨
    (Service.handle_attack g pid x y).1 = (Domain.attack g pid x y).2 ∨
    (Service.handle_attack g pid x y).1 = (Domain.attack g pid x y).2.switch_turn ∨
    (Service.handle_attack g pid x y).1 = (Domain.attack g pid x y).2.finish_game := by
  by_cases hs : g.state = .playing
  · by_cases ht : g.current_turn = pid
    · rcases hcase : (Domain.attack g pid x y).1 with _ | r
      · exact Or.inl
          (by rw [service_attack_none hs ht (domain_attack_none_unchanged hcase)])
      · by_cases hra : r = .already_attacked
        · subst hra
          exact Or.inl (by
            rw [service_attack_already hs ht (domain_attack_already_unchanged hcase)])
        · have hr3 : r = .hit ∨ r = .head_hit ∨ r = .miss := by
            cases r <;> simp_all
          have he' := service_attack_pair_eta hcase
          rcases hw : (Domain.attack g pid x y).2.check_winner with _ | w
          · exact Or.inr (Or.inr (Or.inl
              (by rw [service_attack_cont hs ht he' hr3 hw])))
          · exact Or.inr (Or.inr (Or.inr
              (by rw [service_attack_win hs ht he' hr3 hw])))
    · exact Or.inl (by rw [service_attack_wrong_turn hs ht])
  · exact Or.inl (by rw [service_attack_not_playing hs])

theorem gameInv_step (g : Game) (c : Cmd) (hInv : GameInv g) :
    GameInv (Service.step g c).1 := by
  cases c with
  | join =>
    intro p
    show sideInv (((g.add_player).2).boards.get p) (((g.add_player).2).planes.get p)
    rw [add_player_boards, add_player_planes]
    exact hInv p
  | place pid hx hy o => exact gameInv_place g pid hx hy o hInv
  | attack pid x y =>
    show GameInv (Service.handle_attack g pid x y).1
    rcases service_attack_result_cases g pid x y with h | h | h | h <;> rw [h]
    · exact hInv
    · exact gameInv_domain_attack g pid x y hInv
    · exact fun p => gameInv_domain_attack g pid x y hInv p
    · exact fun p => gameInv_domain_attack g pid x y hInv p

theorem reachable_gameInv {g : Game} (h : Reachable g) : GameInv g := by
  induction h with
  | init => exact gameInv_init
  | step g c hg ih => exact gameInv_step g c ih

/-! ## Claim C9: counting marked cells -/

/-- The statuses that sit on a piece cell: placement marks plus the hit
marks that overwrote them. -/
def markS : CellStatus → Bool :=
  fun c => c == .plane || c == .head || c == .hit || c == .head_hit

/-- The un-attacked placement statuses (`Occupied`/`Vital`). -/
def placedS : CellStatus → Bool :=
  fun c => c == .plane || c == .head

/-- How many cells of the board satisfy `S`. -/
def boardCount (b : Board) (S : CellStatus → Bool) : Nat :=
  (b.map (fun row => row.countP S)).sum

theorem sum_map_getD {α : Type} (l : List α) (f : α → Nat) (d : α) :
    (l.map f).sum = ∑ i in Finset.range l.length, f (l.getD i d) := by
  induction l with
  | nil => simp
  | cons a t ih =>
    rw [List.map_cons, List.sum_cons, ih, List.length_cons,
      Finset.sum_range_succ']
    simp only [List.getD_cons_succ, List.getD_cons_zero]
    exact Nat.add_comm _ _

theorem countP_eq_sum (row : List CellStatus) (S : CellStatus → Bool) :
    row.countP S =
      ∑ i in Finset.range row.length, (if S (row.getD i .empty) then 1 else 0) := by
  induction row with
  | nil => simp
  | cons a t ih =>
    rw [List.countP_cons, ih, List.length_cons, Finset.sum_range_succ']
    simp only [List.getD_cons_succ, List.getD_cons_zero]

theorem boardCount_eq_sum (b : Board) (hb : boardShape b) (S : CellStatus → Bool) :
    boardCount b S = ∑ y in Finset.range 10, ∑ x in Finset.range 10,
      (if S (cellAt b (x : Int) (y : Int)) then 1 else 0) := by
  unfold boardCount
  rw [sum_map_getD _ _ [], hb.1]
  refine Finset.sum_congr rfl ?_
  intro y hy
  have hylt : y < b.length := by
    rw [hb.1]
    exact Finset.mem_range.mp hy
  have hrow : (b.getD y []).length = 10 := hb.2 _ (getD_mem b y [] hylt)
  rw [countP_eq_sum, hrow]
  refine Finset.sum_congr rfl ?_
  intro x hx
  have hcell : cellAt b (x : Int) (y : Int) = (b.getD y []).getD x .empty := by
    unfold cellAt
    rw [Int.toNat_natCast, Int.toNat_natCast]
  rw [hcell]

theorem markS_cellOK {ps : List Plane} {c : CellStatus} {q : Int × Int}
    (h : cellOK ps c q) :
    (markS c = true ↔ ∃ pl ∈ ps, q ∈ pl.positions) := by
  cases c with
  | empty =>
    constructor
    · intro hc
      exact absurd hc (by decide)
    · rintro ⟨pl, hpl, hq⟩
      exact absurd hq (h pl hpl)
  | miss =>
    constructor
    · intro hc
      exact absurd hc (by decide)
    · rintro ⟨pl, hpl, hq⟩
      exact absurd hq (h pl hpl)
  | plane =>
    obtain ⟨pl, hpl, h1, -, -⟩ := h
    exact ⟨fun _ => ⟨pl, hpl, h1⟩, fun _ => by decide⟩
  | head =>
    obtain ⟨pl, hpl, -, h2, -⟩ := h
    exact ⟨fun _ => ⟨pl, hpl, h2⟩, fun _ => by decide⟩
  | hit =>
    obtain ⟨pl, hpl, h1, -, -⟩ := h
    exact ⟨fun _ => ⟨pl, hpl, h1⟩, fun _ => by decide⟩
  | head_hit =>
    obtain ⟨pl, hpl, -, h2, -⟩ := h
    exact ⟨fun _ => ⟨pl, hpl, h2⟩, fun _ => by decide⟩

theorem exclusive_if {p q : Prop} [Decidable p] [Decidable q] (h : ¬(p ∧ q)) :
    (if p ∨ q then 1 else 0) = (if p then 1 else 0) + (if q then 1 else 0) := by
  by_cases hp : p
  · have hq : ¬q := fun hq => h ⟨hp, hq⟩
    simp [hp, hq]
  · simp [hp]

theorem sum_single (a : Int × Int) (ha : inBounds a) :
    ∑ y in Finset.range 10, ∑ x in Finset.range 10,
      (if ((x : Int), (y : Int)) = a then 1 else 0) = 1 := by
  obtain ⟨h1, h2, h3, h4⟩ := ha
  have hcong : ∀ x y : Nat,
      ((((x : Int), (y : Int)) = a) ↔ (x = a.1.toNat ∧ y = a.2.toNat)) := by
    intro x y
    rw [Prod.ext_iff]
    omega
  simp only [hcong]
  have hx10 : a.1.toNat ∈ Finset.range 10 := Finset.mem_range.mpr (by omega)
  have hy10 : a.2.toNat ∈ Finset.range 10 := Finset.mem_range.mpr (by omega)
  simp only [ite_and]
  have hinner : ∀ y : Nat, (∑ x in Finset.range 10,
      (if x = a.1.toNat then (if y = a.2.toNat then 1 else 0) else 0)) =
      (if y = a.2.toNat then 1 else 0) := by
    intro y
    rw [Finset.sum_ite_eq' (Finset.range 10) a.1.toNat
      (fun _ => if y = a.2.toNat then 1 else 0), if_pos hx10]
  rw [Finset.sum_congr rfl (fun y _ => hinner y),
    Finset.sum_ite_eq' (Finset.range 10) a.2.toNat (fun _ => 1), if_pos hy10]

theorem sum_mem_list (L : List (Int × Int)) (hnd : L.Nodup)
    (hin : ∀ q ∈ L, inBounds q) :
    ∑ y in Finset.range 10, ∑ x in Finset.range 10,
      (if ((x : Int), (y : Int)) ∈ L then 1 else 0) = L.length := by
  induction L with
  | nil => simp
  | cons a t ih =>
    obtain ⟨hna, hndt⟩ := List.nodup_cons.mp hnd
    have hsplit : ∀ x y : Nat,
        (if ((x : Int), (y : Int)) ∈ a :: t then 1 else 0) =
        (if ((x : Int), (y : Int)) = a then 1 else 0) +
        (if ((x : Int), (y : Int)) ∈ t then 1 else 0) := by
      intro x y
      simp only [List.mem_cons]
      exact exclusive_if (fun hc => hna (hc.1 ▸ hc.2))
    simp only [hsplit, Finset.sum_add_distrib]
    rw [sum_single a (hin a (List.mem_cons_self a t)),
      ih hndt (fun q hq => hin q (List.mem_cons_of_mem a hq)), List.length_cons]
    omega

theorem sum_covered (ps : List Plane) (hwf : ∀ pl ∈ ps, WFPlane pl)
    (hdisj : planesDisjoint ps) :
    ∑ y in Finset.range 10, ∑ x in Finset.range 10,
      (if (∃ pl ∈ ps, ((x : Int), (y : Int)) ∈ pl.positions) then 1 else 0) =
      10 * ps.length := by
  induction ps with
  | nil => simp
  | cons pl t ih =>
    have hpc := List.pairwise_cons.mp hdisj
    have hsplit : ∀ x y : Nat,
        (if (∃ p ∈ pl :: t, ((x : Int), (y : Int)) ∈ p.positions) then 1 else 0) =
        (if ((x : Int), (y : Int)) ∈ pl.positions then 1 else 0) +
        (if (∃ p ∈ t, ((x : Int), (y : Int)) ∈ p.positions) then 1 else 0) := by
      intro x y
      have hiff : (∃ p ∈ pl :: t, ((x : Int), (y : Int)) ∈ p.positions) ↔
          (((x : Int), (y : Int)) ∈ pl.positions ∨
            ∃ p ∈ t, ((x : Int), (y : Int)) ∈ p.positions) := by
        constructor
        · rintro ⟨p, hp, hq⟩
          rcases List.mem_cons.mp hp with heq | hmem
          · exact Or.inl (heq ▸ hq)
          · exact Or.inr ⟨p, hmem, hq⟩
        · rintro (hq | ⟨p, hmem, hq⟩)
          · exact ⟨pl, List.mem_cons_self pl t, hq⟩
          · exact ⟨p, List.mem_cons_of_mem pl hmem, hq⟩
      rw [if_congr hiff rfl rfl]
      refine exclusive_if ?_
      rintro ⟨hc1, p, hp, hc2⟩
      exact hpc.1 p hp _ hc1 hc2
    simp only [hsplit, Finset.sum_add_distrib]
    have hwfpl := hwf pl (List.mem_cons_self pl t)
    rw [sum_mem_list pl.positions hwfpl.1 hwfpl.2.2.2, hwfpl.2.1,
      ih (fun p hp => hwf p (List.mem_cons_of_mem pl hp)) hpc.2,
      List.length_cons]
    ring

theorem sideInv_markS_count {b : Board} {ps : List Plane} (h : sideInv b ps) :
    boardCount b markS = 10 * ps.length := by
  obtain ⟨hshape, hwf, hdisj, hcells⟩ := h
  rw [boardCount_eq_sum b hshape markS]
  have hcong : ∀ y ∈ Finset.range 10, ∀ x ∈ Finset.range 10,
      (if markS (cellAt b (x : Int) (y : Int)) then 1 else 0) =
      (if (∃ pl ∈ ps, ((x : Int), (y : Int)) ∈ pl.positions) then 1 else 0) := by
    intro y hy x hx
    have h1 := Finset.mem_range.mp hy
    have h2 := Finset.mem_range.mp hx
    have hxb : inBounds ((x : Int), (y : Int)) := by
      unfold inBounds
      omega
    exact if_congr (markS_cellOK (hcells _ hxb)) rfl rfl
  rw [Finset.sum_congr rfl
    (fun y hy => Finset.sum_congr rfl (fun x hx => hcong y hy x hx))]
  exact sum_covered ps hwf hdisj

theorem sum_positions_lengths (ps : List Plane) (hwf : ∀ pl ∈ ps, WFPlane pl) :
    (ps.map (fun pl => pl.positions.length)).sum = 10 * ps.length := by
  induction ps with
  | nil => simp
  | cons pl t ih =>
    rw [List.map_cons, List.sum_cons, (hwf pl (List.mem_cons_self pl t)).2.1,
      ih (fun p hp => hwf p (List.mem_cons_of_mem pl hp)), List.length_cons]
    ring

/-- Claim C9 (amended): in every reachable state, for each side, the number
of grid cells holding one of the piece statuses `plane`, `head`, `hit` or
`head_hit` equals the total number of occupied cells of that side's planes
(10 per plane, destroyed or not).  The count of `plane`/`head` alone drops
when occupied cells are hit, because the hit statuses overwrite the
placement marks (see the counterexample). -/
theorem c9_amended_marked_cell_count (g : Game) (hr : Reachable g) (p : Player) :
    boardCount (g.boards.get p) markS =
      ((g.planes.get p).map (fun pl => pl.positions.length)).sum ∧
    ((g.planes.get p).map (fun pl => pl.positions.length)).sum =
      10 * (g.planes.get p).length := by
  have hInv := reachable_gameInv hr p
  have hsum := sum_positions_lengths (g.planes.get p) hInv.2.1
  exact ⟨by rw [sideInv_markS_count hInv, hsum], hsum⟩

/-- After `gPlaced`, `p1` hits a body cell of `p2`'s first plane. -/
def gHitBody : Game := (Service.run gPlaced [.attack .p1 0 1]).1

/-- Claim C9 counterexample: in the reachable state `gHitBody` one occupied
cell of `player2` has been hit, so only 19 cells carry the placement
statuses `plane`/`head` while the planes hold 20 occupied cells: the claim
"cells holding Occupied or Vital equal the total occupied cells of the
pieces, including after hits" fails. -/
theorem c9_counterexample :
    Reachable gHitBody ∧
    boardCount (gHitBody.boards.get .p2) placedS ≠
      ((gHitBody.planes.get .p2).map (fun pl => pl.positions.length)).sum := by
  constructor
  · exact Reachable.of_run (Reachable.of_run Reachable.init csPlaced)
      [.attack .p1 0 1]
  · decide

theorem c9_witness :
    boardCount (gHitBody.boards.get .p2) markS =
      ((gHitBody.planes.get .p2).map (fun pl => pl.positions.length)).sum :=
  (c9_amended_marked_cell_count gHitBody
    (Reachable.of_run (Reachable.of_run Reachable.init csPlaced)
      [.attack .p1 0 1]) .p2).1

/-! ## Claim C10: the two engines agree -/

theorem markHit_cons_pos {p : Plane} {ps : List Plane} {x y : Int}
    (h : (x, y) ∈ p.positions) :
    Main.markHit (p :: ps) x y =
      { p with hit_positions := p.hit_positions ++ [(x, y)] } :: ps := by
  simp [Main.markHit, h]

theorem markHit_cons_neg {p : Plane} {ps : List Plane} {x y : Int}
    (h : (x, y) ∉ p.positions) :
    Main.markHit (p :: ps) x y = p :: Main.markHit ps x y := by
  simp [Main.markHit, h]

theorem markHeadHit_cons_pos {p : Plane} {ps : List Plane} {x y : Int}
    (h : (x, y) = p.head_position) :
    Main.markHeadHit (p :: ps) x y =
      { p with is_destroyed := true,
               hit_positions := p.hit_positions ++ [(x, y)] } :: ps := by
  simp [Main.markHeadHit, h]

theorem markHeadHit_cons_neg {p : Plane} {ps : List Plane} {x y : Int}
    (h : (x, y) ≠ p.head_position) :
    Main.markHeadHit (p :: ps) x y = p :: Main.markHeadHit ps x y := by
  simp [Main.markHeadHit, h]

theorem markHit_split (l₁ : List Plane) (pl : Plane) (l₂ : List Plane)
    (x y : Int) (h₁ : ∀ a ∈ l₁, (x, y) ∉ a.positions)
    (hm : (x, y) ∈ pl.positions) :
    Main.markHit (l₁ ++ pl :: l₂) x y =
      l₁ ++ { pl with hit_positions := pl.hit_positions ++ [(x, y)] } :: l₂ := by
  induction l₁ with
  | nil => exact markHit_cons_pos hm
  | cons a t ih =>
    show Main.markHit (a :: (t ++ pl :: l₂)) x y = _
    rw [markHit_cons_neg (h₁ a (List.mem_cons_self a t)),
      ih (fun b hb => h₁ b (List.mem_cons_of_mem a hb))]
    rfl

theorem markHeadHit_split (l₁ : List Plane) (pl : Plane) (l₂ : List Plane)
    (x y : Int) (h₁ : ∀ a ∈ l₁, (x, y) ≠ a.head_position)
    (hm : (x, y) = pl.head_position) :
    Main.markHeadHit (l₁ ++ pl :: l₂) x y =
      l₁ ++ { pl with is_destroyed := true,
                      hit_positions := pl.hit_positions ++ [(x, y)] } :: l₂ := by
  induction l₁ with
  | nil => exact markHeadHit_cons_pos hm
  | cons a t ih =>
    show Main.markHeadHit (a :: (t ++ pl :: l₂)) x y = _
    rw [markHeadHit_cons_neg (h₁ a (List.mem_cons_self a t)),
      ih (fun b hb => h₁ b (List.mem_cons_of_mem a hb))]
    rfl

/-- Under the consistency invariant, the two `attack` implementations
compute the same result and the same state. -/
theorem main_attack_eq_domain (g : Game) (a : Player) (x y : Int)
    (hInv : GameInv g) : Main.attack g a x y = Domain.attack g a x y := by
  by_cases hb : x < 0 ∨ 10 ≤ x ∨ y < 0 ∨ 10 ≤ y
  · rw [main_attack_oob hb, domain_attack_oob hb]
  · obtain ⟨hshape, hwf, hdisj, hcells⟩ := hInv a.opponent
    have hbnd : inBounds (x, y) := (not_oob_iff (x, y)).mp hb
    have hok := hcells (x, y) hbnd
    rw [main_attack_cell hb]
    rcases hcl : cellAt (g.boards.get a.opponent) x y with h0 | h0 | h0 | h0 | h0 | h0
    · rw [hcl] at hok
      have hA : Domain.attackPlanes (g.planes.get a.opponent) x y =
          (none, g.planes.get a.opponent) := by
        refine attackPlanes_no_match _ x y ?_
        intro pl hpl
        exact ⟨fun hh => hok pl hpl (hh ▸ wfplane_head_mem (hwf pl hpl)),
          hok pl hpl⟩
      rw [domain_attack_planes_none hb (by rw [hcl]; decide) hA]
    · rw [hcl] at hok
      obtain ⟨pl, hpl, hqpos, hqhead, -⟩ := hok
      obtain ⟨l₁, l₂, hps⟩ := List.append_of_mem hpl
      have h₁ := no_match_before hps hwf hdisj hqpos
      have hA : Domain.attackPlanes (g.planes.get a.opponent) x y =
          (some .hit,
            l₁ ++ { pl with hit_positions := pl.hit_positions ++ [(x, y)] } :: l₂) := by
        rw [hps]
        exact attackPlanes_split_body l₁ pl l₂ x y h₁ hqhead hqpos
      have hM : Main.markHit (g.planes.get a.opponent) x y =
          l₁ ++ { pl with hit_positions := pl.hit_positions ++ [(x, y)] } :: l₂ := by
        rw [hps]
        exact markHit_split l₁ pl l₂ x y (fun b hb => (h₁ b hb).2) hqpos
      rw [domain_attack_planes_some hb (by rw [hcl]; decide) hA, hM]
      rfl
    · rw [hcl] at hok
      obtain ⟨pl, hpl, hqhead, hqpos, -⟩ := hok
      obtain ⟨l₁, l₂, hps⟩ := List.append_of_mem hpl
      have h₁ := no_match_before hps hwf hdisj hqpos
      have hA : Domain.attackPlanes (g.planes.get a.opponent) x y =
          (some .head_hit,
            l₁ ++ { pl with is_destroyed := true,
                            hit_positions := pl.hit_positions ++ [(x, y)] } :: l₂) := by
        rw [hps]
        exact attackPlanes_split_head l₁ pl l₂ x y h₁ hqhead
      have hM : Main.markHeadHit (g.planes.get a.opponent) x y =
          l₁ ++ { pl with is_destroyed := true,
                          hit_positions := pl.hit_positions ++ [(x, y)] } :: l₂ := by
        rw [hps]
        exact markHeadHit_split l₁ pl l₂ x y (fun b hb => (h₁ b hb).1) hqhead
      rw [domain_attack_planes_some hb (by rw [hcl]; decide) hA, hM]
      rfl
    · rw [domain_attack_already hb (Or.inl hcl)]
    · rw [domain_attack_already hb (Or.inr (Or.inr hcl))]
    · rw [domain_attack_already hb (Or.inr (Or.inl hcl))]

theorem main_place_valid {g : Game} {pid : Player} {hx hy : Int}
    {o : PlaneOrientation}
    (hc : Main.checkPositions (get_plane_positions hx hy o).1
      (g.boards.get pid) = none)
    (h2 : ¬ 2 ≤ (g.planes.get pid).length) :
    Main.place_plane g pid hx hy o =
      ((true, "Plane placed successfully"),
        { g with
          boards := g.boards.set pid
            (placeCells (g.boards.get pid) (get_plane_positions hx hy o).1
              (get_plane_positions hx hy o).2)
          planes := g.planes.set pid ((g.planes.get pid) ++
            [{ positions := (get_plane_positions hx hy o).1
               head_position := (get_plane_positions hx hy o).2
               orientation := o }]) }) := by
  simp [Main.place_plane, hc, h2]

theorem checkPositions_valid_rel (ps : List (Int × Int)) (b : Board) :
    ((is_valid_placement ps b).1 = true ∧ Main.checkPositions ps b = none) ∨
    ((is_valid_placement ps b).1 = false ∧
      Main.checkPositions ps b = some (is_valid_placement ps b)) := by
  induction ps with
  | nil => exact Or.inl ⟨rfl, rfl⟩
  | cons q rest ih =>
    by_cases hoob : q.1 < 0 ∨ 10 ≤ q.1 ∨ q.2 < 0 ∨ 10 ≤ q.2
    · refine Or.inr ⟨?_, ?_⟩
      · simp only [is_valid_placement, if_pos hoob]
      · simp only [Main.checkPositions, is_valid_placement, if_pos hoob]
    · by_cases hcell : cellAt b q.1 q.2 ≠ .empty
      · refine Or.inr ⟨?_, ?_⟩
        · simp only [is_valid_placement, if_neg hoob, if_pos hcell]
        · simp only [Main.checkPositions, is_valid_placement, if_neg hoob,
            if_pos hcell]
      · rcases ih with ⟨h1, h2⟩ | ⟨h1, h2⟩
        · refine Or.inl ⟨?_, ?_⟩
          · simp only [is_valid_placement, if_neg hoob, if_neg hcell]
            exact h1
          · simp only [Main.checkPositions, if_neg hoob, if_neg hcell]
            exact h2
        · refine Or.inr ⟨?_, ?_⟩
          · simp only [is_valid_placement, if_neg hoob, if_neg hcell]
            exact h1
          · simp only [Main.checkPositions, is_valid_placement,
              if_neg hoob, if_neg hcell]
            exact h2

theorem is_valid_false_msg (ps : List (Int × Int)) (b : Board)
    (h : (is_valid_placement ps b).1 = false) :
    (is_valid_placement ps b).2 = "Plane out of bounds" ∨
    (is_valid_placement ps b).2 = "Plane overlaps with another plane" := by
  induction ps with
  | nil => simp [is_valid_placement] at h
  | cons q rest ih =>
    by_cases hoob : q.1 < 0 ∨ 10 ≤ q.1 ∨ q.2 < 0 ∨ 10 ≤ q.2
    · simp only [is_valid_placement, if_pos hoob]
      exact Or.inl trivial
    · by_cases hcell : cellAt b q.1 q.2 ≠ .empty
      · simp only [is_valid_placement, if_neg hoob, if_pos hcell]
        exact Or.inr trivial
      · simp only [is_valid_placement, if_neg hoob, if_neg hcell] at h ⊢
        exact ih h

theorem place_rel (g : Game) (pid : Player) (hx hy : Int) (o : PlaneOrientation) :
    (Main.place_plane g pid hx hy o).2 = (Domain.place_plane g pid hx hy o).2 ∧
    ((Main.place_plane g pid hx hy o).1 = (Domain.place_plane g pid hx hy o).1 ∨
      (2 ≤ (g.planes.get pid).length ∧
        (Main.place_plane g pid hx hy o).1 =
          is_valid_placement (get_plane_positions hx hy o).1 (g.boards.get pid) ∧
        (is_valid_placement (get_plane_positions hx hy o).1 (g.boards.get pid)).1 =
          false ∧
        (Domain.place_plane g pid hx hy o).1 = (false, "Already placed 2 planes"))) := by
  rcases checkPositions_valid_rel (get_plane_positions hx hy o).1
      (g.boards.get pid) with ⟨h1, h2⟩ | ⟨h1, h2⟩
  · by_cases hl : 2 ≤ (g.planes.get pid).length
    · rw [main_place_full h2 hl, domain_place_full hl]
      exact ⟨rfl, Or.inl rfl⟩
    · rw [main_place_valid h2 hl, domain_place_valid hl h1]
      exact ⟨rfl, Or.inl rfl⟩
  · rw [main_place_check_some h2]
    by_cases hl : 2 ≤ (g.planes.get pid).length
    · rw [domain_place_full hl]
      exact ⟨rfl, Or.inr ⟨hl, rfl, h1, rfl⟩⟩
    · rw [domain_place_invalid hl h1]
      exact ⟨rfl, Or.inl (Prod.ext h1 rfl)⟩

theorem ws_attack_not_playing {g : Game} {pid : Player} {x y : Int}
    (h : g.state ≠ .playing) :
    Ws.handle_attack g pid x y = (g, .attacked .ignored) := by
  simp [Ws.handle_attack, h]

theorem ws_attack_wrong_turn {g : Game} {pid : Player} {x y : Int}
    (hs : g.state = .playing) (ht : g.current_turn ≠ pid) :
    Ws.handle_attack g pid x y = (g, .attacked .notYourTurn) := by
  simp [Ws.handle_attack, hs, ht]

theorem ws_attack_none {g g1 : Game} {pid : Player} {x y : Int}
    (hs : g.state = .playing) (ht : g.current_turn = pid)
    (ha : Main.attack g pid x y = (none, g1)) :
    Ws.handle_attack g pid x y = (g1, .attacked .invalid) := by
  simp [Ws.handle_attack, hs, ht, ha]

theorem ws_attack_already {g g1 : Game} {pid : Player} {x y : Int}
    (hs : g.state = .playing) (ht : g.current_turn = pid)
    (ha : Main.attack g pid x y = (some .already_attacked, g1)) :
    Ws.handle_attack g pid x y = (g1, .attacked .invalid) := by
  simp [Ws.handle_attack, hs, ht, ha]

theorem ws_attack_win {g g1 : Game} {pid : Player} {x y : Int}
    {r : AttackResult} {w : Player}
    (hs : g.state = .playing) (ht : g.current_turn = pid)
    (ha : Main.attack g pid x y = (some r, g1))
    (hr : r = .hit ∨ r = .head_hit ∨ r = .miss)
    (hw : g1.check_winner = some w) :
    Ws.handle_attack g pid x y =
      ({ g1 with state := .finished }, .attacked (.resolved r (some w))) := by
  rcases hr with hr | hr | hr <;> subst hr <;>
    simp [Ws.handle_attack, hs, ht, ha, hw]

theorem ws_attack_cont {g g1 : Game} {pid : Player} {x y : Int}
    {r : AttackResult}
    (hs : g.state = .playing) (ht : g.current_turn = pid)
    (ha : Main.attack g pid x y = (some r, g1))
    (hr : r = .hit ∨ r = .head_hit ∨ r = .miss)
    (hw : g1.check_winner = none) :
    Ws.handle_attack g pid x y =
      ({ g1 with current_turn := pid.opponent }, .attacked (.resolved r none)) := by
  rcases hr with hr | hr | hr <;> subst hr <;>
    simp [Ws.handle_attack, hs, ht, ha, hw]

theorem ws_attack_eq_service (g : Game) (pid : Player) (x y : Int)
    (hInv : GameInv g) :
    Ws.handle_attack g pid x y = Service.handle_attack g pid x y := by
  have hAeq := main_attack_eq_domain g pid x y hInv
  by_cases hs : g.state = .playing
  · by_cases ht : g.current_turn = pid
    · rcases hcase : (Domain.attack g pid x y).1 with _ | r
      · have hD := domain_attack_none_unchanged hcase
        rw [service_attack_none hs ht hD, ws_attack_none hs ht (hAeq.trans hD)]
      · by_cases hra : r = .already_attacked
        · subst hra
          have hD := domain_attack_already_unchanged hcase
          rw [service_attack_already hs ht hD,
            ws_attack_already hs ht (hAeq.trans hD)]
        · have hr3 : r = .hit ∨ r = .head_hit ∨ r = .miss := by
            cases r <;> simp_all
          have he' := service_attack_pair_eta hcase
          rcases hw : (Domain.attack g pid x y).2.check_winner with _ | w
          · rw [service_attack_cont hs ht he' hr3 hw,
              ws_attack_cont hs ht (hAeq.trans he') hr3 hw]
            have hct : (Domain.attack g pid x y).2.current_turn = pid := by
              rw [(domain_attack_preserves g pid x y).2.1]
              exact ht
            unfold Game.switch_turn
            rw [hct]
          · rw [service_attack_win hs ht he' hr3 hw,
              ws_attack_win hs ht (hAeq.trans he') hr3 hw]
            rfl
    · rw [service_attack_wrong_turn hs ht, ws_attack_wrong_turn hs ht]
  · rw [service_attack_not_playing hs, ws_attack_not_playing hs]

/-- How a single command's reply may differ between the two engines: they
are equal, except that a rejected third placement reports the geometry
error in the standalone engine but `"Already placed 2 planes"` in the
layered one. -/
def outRel (o1 o2 : Out) : Prop :=
  o1 = o2 ∨
  ∃ msg n, (msg = "Plane out of bounds" ∨ msg = "Plane overlaps with another plane") ∧
    o1 = .placed false msg n ∧ o2 = .placed false "Already placed 2 planes" n

theorem ws_place_state_eq (g : Game) (pid : Player) (hx hy : Int)
    (o : PlaneOrientation) :
    (Ws.handle_plane_placement g pid hx hy o).1 =
      (Service.handle_plane_placement g pid hx hy o).1 := by
  have hst := (place_rel g pid hx hy o).1
  unfold Ws.handle_plane_placement Service.handle_plane_placement
    Game.mark_player_ready Game.start_game Game.are_both_players_ready
  dsimp only
  rw [hst]
  split_ifs <;> rfl

theorem ws_place_out_rel (g : Game) (pid : Player) (hx hy : Int)
    (o : PlaneOrientation) :
    outRel (Ws.handle_plane_placement g pid hx hy o).2
      (Service.handle_plane_placement g pid hx hy o).2 := by
  obtain ⟨hst, hout⟩ := place_rel g pid hx hy o
  show outRel
    (.placed (Main.place_plane g pid hx hy o).1.1 (Main.place_plane g pid hx hy o).1.2
      (((Main.place_plane g pid hx hy o).2.planes.get pid).length))
    (.placed (Domain.place_plane g pid hx hy o).1.1 (Domain.place_plane g pid hx hy o).1.2
      (((Domain.place_plane g pid hx hy o).2.planes.get pid).length))
  rcases hout with he | ⟨h2, heM, hvf, heD⟩
  · left
    rw [he, hst]
  · right
    refine ⟨(is_valid_placement (get_plane_positions hx hy o).1 (g.boards.get pid)).2,
      ((Domain.place_plane g pid hx hy o).2.planes.get pid).length,
      is_valid_false_msg _ _ hvf, ?_, ?_⟩
    · rw [heM, hvf, hst]
    · rw [heD]

theorem step_rel (g : Game) (c : Cmd) (hInv : GameInv g) :
    (Ws.step g c).1 = (Service.step g c).1 ∧
    outRel (Ws.step g c).2 (Service.step g c).2 := by
  cases c with
  | join => exact ⟨rfl, Or.inl rfl⟩
  | place pid hx hy o =>
    exact ⟨ws_place_state_eq g pid hx hy o, ws_place_out_rel g pid hx hy o⟩
  | attack pid x y =>
    have h := ws_attack_eq_service g pid x y hInv
    exact ⟨congrArg Prod.fst h, Or.inl (congrArg Prod.snd h)⟩

theorem run_rel (cs : List Cmd) (g : Game) (hInv : GameInv g) :
    (Ws.run g cs).1 = (Service.run g cs).1 ∧
    List.Forall₂ outRel (Ws.run g cs).2 (Service.run g cs).2 := by
  induction cs generalizing g with
  | nil => exact ⟨rfl, List.Forall₂.nil⟩
  | cons c cs ih =>
    obtain ⟨hst, hout⟩ := step_rel g c hInv
    obtain ⟨ih1, ih2⟩ := ih (Service.step g c).1 (gameInv_step g c hInv)
    constructor
    · show (Ws.run (Ws.step g c).1 cs).1 = (Service.run (Service.step g c).1 cs).1
      rw [hst]
      exact ih1
    · show List.Forall₂ outRel
        ((Ws.step g c).2 :: (Ws.run (Ws.step g c).1 cs).2)
        ((Service.step g c).2 :: (Service.run (Service.step g c).1 cs).2)
      rw [hst]
      exact List.Forall₂.cons hout ih2

/-- Claim C10 (amended): the standalone engine in `main.py` and the layered
engine (`domain/models.py` through `application/game_service.py`) reach
exactly the same state on every sequence of join/place/attack commands, and
every reply is identical — except that a third placement whose geometry is
rejected answers with the geometry error (`"Plane out of bounds"` or
`"Plane overlaps with another plane"`) in the standalone engine where the
layered one answers `"Already placed 2 planes"` (see the counterexample). -/
theorem c10_amended_engines_equivalent (cs : List Cmd) :
    (Ws.run initGame cs).1 = (Service.run initGame cs).1 ∧
    List.Forall₂ outRel (Ws.run initGame cs).2 (Service.run initGame cs).2 :=
  run_rel cs initGame gameInv_init

/-- Joins, two placements for `p1`, then a third placement with an
out-of-bounds anchor: the engines answer differently. -/
def csDiverge : List Cmd :=
  [.join, .join, .place .p1 2 0 .up, .place .p1 2 4 .up, .place .p1 20 0 .up]

/-- Claim C10 counterexample: the two engines are not observably
equivalent: on `csDiverge` the standalone engine replies
`"Plane out of bounds"` to the last command while the layered engine
replies `"Already placed 2 planes"`. -/
theorem c10_counterexample :
    (Ws.run initGame csDiverge).2 ≠ (Service.run initGame csDiverge).2 ∧
    (Ws.run initGame csDiverge).2.getLast? =
      some (.placed false "Plane out of bounds" 2) ∧
    (Service.run initGame csDiverge).2.getLast? =
      some (.placed false "Already placed 2 planes" 2) := by
  refine ⟨by decide, by decide, by decide⟩

end Battleplanes
